import Mathlib

/-
Verification of the natural-language specification of
`stock-change-calculator` (`src/stock_calculator.py`) against a shallow
embedding of its resolution engine.

Modelling conventions:
* Python floats are modelled as exact rationals (`ℚ`); Python float
  division raises `ZeroDivisionError` on a zero divisor, modelled by
  `pyDiv` returning an `Except`.
* Dates are modelled by their Python proleptic-Gregorian ordinal
  (`datetime.toordinal`): ordinal 1 is Monday 0001-01-01 and
  `timedelta(days=k)` is addition of `k`; `weekday` returns Monday = 0
  .. Sunday = 6 exactly as `datetime.weekday()`.  The `dd-mmm-yy`
  parsing/formatting of date strings is I/O plumbing outside every
  claim and is abstracted by the ordinal (rendered with `toString` in
  the human-readable notes).
* The two external services (yfinance price/metadata provider, OpenFIGI
  mapping/search endpoints) are black boxes per the spec, modelled as
  function-valued parameters; a raised exception is an `Except.error`.
* `time.sleep` and `print` calls are pure no-ops and are omitted.
-/

namespace StockCalc

/-- Exceptions that can propagate out of the yfinance-side helpers:
a provider-internal exception, the `StockDelistedError` raised by
`fetch_stock_price`, and `ZeroDivisionError` from float division. -/
inductive PErr where
  | provider
  | delistedE
  | zeroDiv
deriving DecidableEq, Repr

/-- Python float division `a / b`: raises `ZeroDivisionError` when the
divisor is zero, otherwise exact division (floats modelled as `ℚ`). -/
def pyDiv (a b : ℚ) : Except PErr ℚ :=
  if b = 0 then .error .zeroDiv else .ok (a / b)

/-- `calculate_percentage_change` (source lines 272-285):
`((n_end_price - n_start_price) / n_start_price) * 100`. -/
def calculate_percentage_change (n_start_price n_end_price : ℚ) : Except PErr ℚ :=
  match pyDiv (n_end_price - n_start_price) n_start_price with
  | .error e => .error e
  | .ok q => .ok (q * 100)

/-- Helper for `sanitise_ticker`: drop leading slashes of a char list
(applied to the reversed ticker, this is Python `str.rstrip("/")`). -/
def dropLeadSlashes : List Char → List Char
  | [] => []
  | c :: cs => if c = '/' then dropLeadSlashes cs else c :: cs

/-- `sanitise_ticker` (source lines 290-305): `s_ticker_raw.rstrip("/")`. -/
def sanitise_ticker (s_ticker_raw : String) : String :=
  ⟨(dropLeadSlashes s_ticker_raw.data.reverse).reverse⟩

/-- `DICT_EXCHANGE_SUFFIX` (source lines 103-114). -/
def DICT_EXCHANGE_SUFFIX : List (String × String) :=
  [("US", ""), ("UN", ""), ("UQ", ""), ("LN", ".L"), ("GY", ".DE"),
   ("FP", ".PA"), ("JP", ".T"), ("HK", ".HK"), ("AU", ".AX"), ("CN", ".TO")]

/-- `map_exchange_to_suffix` (source lines 836-848): dictionary lookup
with default `""`. -/
def map_exchange_to_suffix (s_exchange_code : String) : String :=
  ((DICT_EXCHANGE_SUFFIX.find? (fun p => p.1 == s_exchange_code)).map Prod.snd).getD ""

/-- `datetime.weekday()` at ordinal level: Monday = 0 .. Sunday = 6. -/
def weekday (n : Nat) : Nat := (n + 6) % 7

/-- `adjust_to_trading_day` (source lines 853-887), flag-returning
variant: Saturday (5) gets +2 days, Sunday (6) gets +1 day, any other
weekday is unchanged; the flag records whether a change was made.  The
no-flag call sites of the source use the first component. -/
def adjust_to_trading_day (n : Nat) : Nat × Bool :=
  if weekday n = 5 then (n + 2, true)
  else if weekday n = 6 then (n + 1, true)
  else (n, false)

/-- Python `round(x, 2)` on exact rationals.  (Python resolves exact
ties to even; no claim exercises a tie, and ties are modelled with
Mathlib `round`, which resolves them upward.) -/
def round2 (x : ℚ) : ℚ := (round (x * 100) : ℤ) / 100

/-- Does `hay` start with `needle` (char lists)? -/
def startsWithL : List Char → List Char → Bool
  | _, [] => true
  | [], _ :: _ => false
  | h :: hs, n :: ns => h == n && startsWithL hs ns

/-- Contiguous-substring containment of `needle` in `hay` (char lists),
modelling Python `needle in hay` on strings. -/
def hasSub : List Char → List Char → Bool
  | [], needle => needle.isEmpty
  | h :: hs, needle => startsWithL (h :: hs) needle || hasSub hs needle

/-- Python `needle in hay` for strings. -/
def strContains (hay needle : String) : Bool := hasSub hay.data needle.data

/-- The yfinance side as a black box, per spec section 6:
`history t a b` is the time-ordered list of closing prices in the
calendar window `[a, b)` for ticker `t` (empty when the ticker is
unknown or has no data in the window), or an error when the provider
raises; `info t` is the optional currency code of the instrument
metadata, or an error when the provider raises. -/
structure PriceProvider where
  history : String → Nat → Nat → Except Unit (List ℚ)
  info : String → Except Unit (Option String)

/-- The dictionary returned by `validate_ticker_and_fetch_prices`:
`b_valid` plus the optional cached prices and currency (absent keys and
`None` values are indistinguishable through `dict.get`). -/
structure ValidationOutcome where
  b_valid : Bool
  n_start_price : Option ℚ
  n_end_price : Option ℚ
  s_currency : Option String
deriving DecidableEq, Repr

/-- The `{"b_valid": False}` dictionary. -/
def invalidOutcome : ValidationOutcome :=
  { b_valid := false, n_start_price := none, n_end_price := none, s_currency := none }

/-- Body of the `try` block of `validate_ticker_and_fetch_prices`
(source lines 943-985): adjust both dates to trading days, query a
5-day window beginning at each adjusted date, require both non-empty,
take the first close of each, fetch the currency (default `"N/A"`).
An `.error` is an exception escaping the `try` block. -/
def validateBody (pp : PriceProvider) (s_ticker : String) (s e : Nat) :
    Except PErr ValidationOutcome :=
  let adjS := (adjust_to_trading_day s).1
  let adjE := (adjust_to_trading_day e).1
  match pp.history s_ticker adjS (adjS + 5) with
  | .error _ => .error .provider
  | .ok [] => .ok invalidOutcome
  | .ok (p1 :: _) =>
    match pp.history s_ticker adjE (adjE + 5) with
    | .error _ => .error .provider
    | .ok [] => .ok invalidOutcome
    | .ok (p2 :: _) =>
      match pp.info s_ticker with
      | .error _ => .error .provider
      | .ok copt =>
        .ok { b_valid := true, n_start_price := some (round2 p1),
              n_end_price := some (round2 p2), s_currency := some (copt.getD "N/A") }

/-- `validate_ticker_and_fetch_prices` (source lines 923-989): the body
wrapped in `try ... except Exception: return {"b_valid": False}`. -/
def validate_ticker_and_fetch_prices (pp : PriceProvider) (s_ticker : String) (s e : Nat) :
    ValidationOutcome :=
  match validateBody pp s_ticker s e with
  | .ok v => v
  | .error _ => invalidOutcome

/-- One entry of the OpenFIGI Search API `data` array. -/
structure Candidate where
  ticker : String
  exchCode : String
  securityType : String
  securityType2 : String
  name : String
deriving DecidableEq, Repr

/-- `LIST_S_VALID_SECURITY_TYPES` (source lines 81-85). -/
def LIST_S_VALID_SECURITY_TYPES : List String := ["Common Stock", "REIT", "ETP"]

/-- `LIST_S_EXCHANGE_PRIORITY` (source lines 88-100). -/
def LIST_S_EXCHANGE_PRIORITY : List String :=
  ["LN", "US", "UN", "UQ", "UM", "CN", "CT", "GF", "GR", "GY", "NA"]

/-- The AND filter of `select_and_validate_best_result` (source lines
439-447): valid primary or secondary security type, exchange code equal
to the current priority exchange, lower-cased query contained in the
lower-cased name. -/
def structuralMatch (s_search_query_lowercase s_priority_exchange_code : String)
    (c : Candidate) : Bool :=
  (LIST_S_VALID_SECURITY_TYPES.contains c.securityType ||
   LIST_S_VALID_SECURITY_TYPES.contains c.securityType2)
  && (c.exchCode == s_priority_exchange_code)
  && strContains c.name.toLower s_search_query_lowercase

/-- The exchange-qualified ticker built on a structural match (source
lines 449-452): sanitised raw ticker plus exchange suffix. -/
def fullTickerOf (c : Candidate) : String :=
  sanitise_ticker c.ticker ++ map_exchange_to_suffix c.exchCode

/-- The dictionary returned by `select_and_validate_best_result` on a
validated hit (source lines 463-471). -/
structure SelectResult where
  ticker : String
  exchCode : String
  name : String
  s_full_ticker : String
  n_start_price : Option ℚ
  n_end_price : Option ℚ
  s_currency : Option String
deriving DecidableEq, Repr

/-- The enriched result built from a candidate (source lines 463-471):
sanitised ticker, candidate exchange code and name, full ticker, and
the prices/currency cached by the validator. -/
def mkSelectResult (pp : PriceProvider) (s e : Nat) (c : Candidate) : SelectResult :=
  let v := validate_ticker_and_fetch_prices pp (fullTickerOf c) s e
  { ticker := sanitise_ticker c.ticker, exchCode := c.exchCode, name := c.name,
    s_full_ticker := fullTickerOf c,
    n_start_price := v.n_start_price, n_end_price := v.n_end_price,
    s_currency := v.s_currency }

/-- One inner-loop step of `select_and_validate_best_result` (source
lines 432-472): on a structural match validate the full ticker; return
the enriched result if valid, otherwise keep scanning. -/
def tryCandidate (pp : PriceProvider) (s e : Nat) (ql ex : String) (c : Candidate) :
    Option SelectResult :=
  if structuralMatch ql ex c then
    if (validate_ticker_and_fetch_prices pp (fullTickerOf c) s e).b_valid then
      some (mkSelectResult pp s e c)
    else none
  else none

/-- `select_and_validate_best_result` (source lines 397-474): outer loop
over `LIST_S_EXCHANGE_PRIORITY`, inner loop over the API results in
their original order, with early return on the first validated match. -/
def select_and_validate_best_result (pp : PriceProvider)
    (list_dict_api_results : List Candidate) (s_search_query : String)
    (s_start_date s_end_date : Nat) : Option SelectResult :=
  LIST_S_EXCHANGE_PRIORITY.findSome? (fun ex =>
    list_dict_api_results.findSome?
      (tryCandidate pp s_start_date s_end_date s_search_query.toLower ex))

/-- Spec-side scan order (spec section 4.2): all structural matches,
priority tiers outer, original API order inner. -/
def priorityScanList (cands : List Candidate) (query : String) : List Candidate :=
  LIST_S_EXCHANGE_PRIORITY.flatMap (fun ex => cands.filter (structuralMatch query.toLower ex))

/-- Acceptance by the price validator (spec section 4.2 step 4). -/
def acceptedBy (pp : PriceProvider) (s e : Nat) (c : Candidate) : Bool :=
  (validate_ticker_and_fetch_prices pp (fullTickerOf c) s e).b_valid

/-- Within one exchange tier, the inner scan returns the first
candidate (in original API order) that both matches structurally and is
accepted by the validator. -/
theorem findSome_tryCandidate (pp : PriceProvider) (s e : Nat) (ql ex : String)
    (cands : List Candidate) :
    cands.findSome? (tryCandidate pp s e ql ex) =
      ((cands.filter (structuralMatch ql ex)).find? (acceptedBy pp s e)).map
        (mkSelectResult pp s e) := by
  induction cands with
  | nil => rfl
  | cons c cs ih =>
    simp only [List.findSome?_cons, List.filter_cons, tryCandidate]
    by_cases hm : structuralMatch ql ex c
    · simp only [hm, if_true]
      by_cases hv : (validate_ticker_and_fetch_prices pp (fullTickerOf c) s e).b_valid
      · simp [hv, List.find?_cons, acceptedBy]
      · simp [hv, List.find?_cons, acceptedBy, ih]
    · simp [hm, ih]

/-- Scanning tiers with early return equals one `find?` over the
flattened tier-ordered scan list. -/
theorem findSome_tiers {α β : Type} (g : String → List α) (q : α → Bool) (mk : α → β)
    (exs : List String) :
    exs.findSome? (fun ex => ((g ex).find? q).map mk) = ((exs.flatMap g).find? q).map mk := by
  induction exs with
  | nil => rfl
  | cons x xs ih =>
    simp only [List.findSome?_cons, List.flatMap_cons, List.find?_append]
    cases h : (g x).find? q with
    | none => simp [h, ih, Option.or]
    | some c => simp [h, Option.or]

/-- C1: for every candidate list, query and date pair,
`select_and_validate_best_result` returns exactly the first candidate
of the tier-ordered scan list (priority exchanges outer, original API
order inner) that passes all three structural filters and is accepted
by the price validator, enriched with the validator's cached prices; it
returns `none` when no tier yields a validated candidate, never falling
back to an unvalidated candidate. -/
theorem C1_selector_first_validated_in_scan_order (pp : PriceProvider)
    (cands : List Candidate) (query : String) (s e : Nat) :
    select_and_validate_best_result pp cands query s e =
      ((priorityScanList cands query).find? (acceptedBy pp s e)).map
        (mkSelectResult pp s e) := by
  unfold select_and_validate_best_result priorityScanList
  rw [← findSome_tiers]
  congr 1
  funext ex
  exact findSome_tryCandidate pp s e query.toLower ex cands

/-- C3: the validator is total: an exception escaping its body (from
the provider or its own processing) yields the `{b_valid: False}`
outcome rather than propagating; `b_valid` is true exactly when both
5-day windows beginning at the weekend-adjusted dates come back
non-empty (and the metadata call does not raise); and on success the
cached prices are the first close of each window rounded to two
decimals, with the provider currency defaulted to `"N/A"`. -/
theorem C3_validator_never_propagates (pp : PriceProvider) (t : String) (s e : Nat) :
    (∀ pe, validateBody pp t s e = .error pe →
      validate_ticker_and_fetch_prices pp t s e = invalidOutcome) ∧
    ((validate_ticker_and_fetch_prices pp t s e).b_valid = true ↔
      ∃ p1 l1 p2 l2 c,
        pp.history t (adjust_to_trading_day s).1 ((adjust_to_trading_day s).1 + 5) =
          .ok (p1 :: l1) ∧
        pp.history t (adjust_to_trading_day e).1 ((adjust_to_trading_day e).1 + 5) =
          .ok (p2 :: l2) ∧
        pp.info t = .ok c) ∧
    (∀ p1 l1 p2 l2 c,
        pp.history t (adjust_to_trading_day s).1 ((adjust_to_trading_day s).1 + 5) =
          .ok (p1 :: l1) →
        pp.history t (adjust_to_trading_day e).1 ((adjust_to_trading_day e).1 + 5) =
          .ok (p2 :: l2) →
        pp.info t = .ok c →
        validate_ticker_and_fetch_prices pp t s e =
          { b_valid := true, n_start_price := some (round2 p1),
            n_end_price := some (round2 p2), s_currency := some (c.getD "N/A") }) := by
  refine ⟨fun pe hpe => ?_, ?_, fun p1 l1 p2 l2 c h1 h2 h3 => ?_⟩
  · unfold validate_ticker_and_fetch_prices
    rw [hpe]
  · unfold validate_ticker_and_fetch_prices validateBody
    cases h1 : pp.history t (adjust_to_trading_day s).1 ((adjust_to_trading_day s).1 + 5) with
    | error u => simp [h1, invalidOutcome]
    | ok l1 =>
      cases l1 with
      | nil => simp [h1, invalidOutcome]
      | cons p1 tl1 =>
        cases h2 : pp.history t (adjust_to_trading_day e).1 ((adjust_to_trading_day e).1 + 5) with
        | error u => simp [h1, h2, invalidOutcome]
        | ok l2 =>
          cases l2 with
          | nil => simp [h1, h2, invalidOutcome]
          | cons p2 tl2 =>
            cases h3 : pp.info t with
            | error u => simp [h1, h2, h3, invalidOutcome]
            | ok copt =>
              simp only [h1, h2, h3]
              constructor
              · exact fun _ => ⟨p1, tl1, p2, tl2, copt, rfl, rfl, rfl⟩
              · intro h
                trivial
  · simp [validate_ticker_and_fetch_prices, validateBody, h1, h2, h3]

/-- A concrete benign provider: every window holds closes 100 and 101,
metadata currency is USD. -/
def ppGood : PriceProvider :=
  { history := fun _ _ _ => .ok [100, 101], info := fun _ => .ok (some "USD") }

/-- Concrete instance of C3 on `ppGood`. -/
theorem C3_validator_never_propagates_witness :
    validate_ticker_and_fetch_prices ppGood "AAPL" 3 4 =
      { b_valid := true, n_start_price := some (round2 100),
        n_end_price := some (round2 100), s_currency := some "USD" } :=
  (C3_validator_never_propagates ppGood "AAPL" 3 4).2.2 100 [101] 100 [101]
    (some "USD") rfl rfl rfl

/-- C7: the percentage formula for a nonzero start price, with the
three sign cases of the spec evaluated concretely. -/
theorem C7_percentage_change_formula :
    (∀ s t : ℚ, s ≠ 0 → calculate_percentage_change s t = .ok ((t - s) / s * 100)) ∧
    calculate_percentage_change 100 150 = .ok 50 ∧
    calculate_percentage_change 100 75 = .ok (-25) ∧
    calculate_percentage_change 100 100 = .ok 0 := by
  refine ⟨fun s t hs => ?_, ?_, ?_, ?_⟩
  · simp only [calculate_percentage_change, pyDiv, if_neg hs]
  · simp only [calculate_percentage_change, pyDiv]
    norm_num
  · simp only [calculate_percentage_change, pyDiv]
    norm_num
  · simp only [calculate_percentage_change, pyDiv]
    norm_num

/-- Concrete instance of the universally quantified part of C7. -/
theorem C7_percentage_change_formula_witness :
    calculate_percentage_change 100 150 = .ok ((150 - 100) / 100 * 100) :=
  C7_percentage_change_formula.1 100 150 (by norm_num)

/-- C8: a zero start price makes `calculate_percentage_change` raise
`ZeroDivisionError` instead of returning a numeric result, for every
end price. -/
theorem C8_zero_start_price_raises (t : ℚ) :
    calculate_percentage_change 0 t = .error .zeroDiv := by
  simp [calculate_percentage_change, pyDiv]

/-- C9: the trading-day adjuster sends every Saturday (`7*k+6`) two
days forward and every Sunday (`7*k+7`) one day forward, both landing
on a Monday, leaves every other weekday (`7*k+1` .. `7*k+5`) unchanged,
and its flag is true exactly when the returned date differs from the
input. -/
theorem C9_adjuster_weekend_logic (k n : Nat) :
    (weekday (7 * k + 6) = 5 ∧ adjust_to_trading_day (7 * k + 6) = (7 * k + 8, true)) ∧
    (weekday (7 * k + 7) = 6 ∧ adjust_to_trading_day (7 * k + 7) = (7 * k + 8, true)) ∧
    weekday (7 * k + 8) = 0 ∧
    adjust_to_trading_day (7 * k + 1) = (7 * k + 1, false) ∧
    adjust_to_trading_day (7 * k + 2) = (7 * k + 2, false) ∧
    adjust_to_trading_day (7 * k + 3) = (7 * k + 3, false) ∧
    adjust_to_trading_day (7 * k + 4) = (7 * k + 4, false) ∧
    adjust_to_trading_day (7 * k + 5) = (7 * k + 5, false) ∧
    ((adjust_to_trading_day n).2 = true ↔ (adjust_to_trading_day n).1 ≠ n) := by
  have h6 : weekday (7 * k + 6) = 5 := by unfold weekday; omega
  have h7 : weekday (7 * k + 7) = 6 := by unfold weekday; omega
  have h8 : weekday (7 * k + 8) = 0 := by unfold weekday; omega
  have h1 : weekday (7 * k + 1) = 0 := by unfold weekday; omega
  have h2 : weekday (7 * k + 2) = 1 := by unfold weekday; omega
  have h3 : weekday (7 * k + 3) = 2 := by unfold weekday; omega
  have h4 : weekday (7 * k + 4) = 3 := by unfold weekday; omega
  have h5 : weekday (7 * k + 5) = 4 := by unfold weekday; omega
  have hiff : (adjust_to_trading_day n).2 = true ↔ (adjust_to_trading_day n).1 ≠ n := by
    unfold adjust_to_trading_day
    split
    · simp
    · split
      · simp
      · simp
  refine ⟨⟨h6, ?_⟩, ⟨h7, ?_⟩, h8, ?_, ?_, ?_, ?_, ?_, hiff⟩ <;>
    simp [adjust_to_trading_day, h1, h2, h3, h4, h5, h6, h7]

/-- Concrete instance of C9 at the first Saturday and at a plain
weekday. -/
theorem C9_adjuster_weekend_logic_witness :
    adjust_to_trading_day 6 = (8, true) ∧ adjust_to_trading_day 1 = (1, false) :=
  ⟨(C9_adjuster_weekend_logic 0 0).1.2, (C9_adjuster_weekend_logic 0 0).2.2.2.1⟩

/-- An input stock row (`{"s_name": .., "s_ticker": .., "s_isin": ..}`);
empty string means the field is absent. -/
structure Stock where
  s_name : String
  s_ticker : String
  s_isin : String
deriving DecidableEq, Repr

/-- One element of a Mapping API batch response: the e-warning/error/
missing-data/empty-data sentinel (all treated alike by source line
689), or the first `data` entry with its ticker and exchange code. -/
inductive MapResp where
  | noMatch
  | found (ticker exchCode : String)
deriving DecidableEq, Repr

/-- Runtime failures that abort the batch resolution: a raised
`ApiError` (transport error, HTTP 429 or any other non-200 status —
the claims never distinguish the message), a Python `IndexError` from
list indexing, and the `AttributeError` raised by calling `.get` on a
`None` placeholder. -/
inductive RunError where
  | apiError (msg : String)
  | indexError
  | attributeError
deriving DecidableEq, Repr

/-- One per-stock result dictionary of
`resolve_tickers_batch_with_prices` (source lines 583-591). -/
structure ResolutionResult where
  s_ticker : String
  s_exchange_code : String
  s_full_ticker : String
  b_not_found : Bool
  b_skipped : Bool
  n_start_price : Option ℚ
  n_end_price : Option ℚ
  s_currency : Option String
deriving DecidableEq, Repr

/-- The OpenFIGI side as a black box: the Mapping endpoint takes a
batch of ISIN queries and returns one response list (or raises), the
Search endpoint takes a name and returns the `data` candidate array
(empty when the key is missing or the array empty — indistinguishable
downstream), or raises. -/
structure Env where
  mapApi : List String → Except String (List MapResp)
  searchApi : String → Except String (List Candidate)
  pp : PriceProvider

/-- The all-empty `b_not_found := true` result dictionary (source
lines 690-699, 728-737 and 533/547). -/
def notFoundRR : ResolutionResult :=
  { s_ticker := "", s_exchange_code := "", s_full_ticker := "", b_not_found := true,
    b_skipped := false, n_start_price := none, n_end_price := none, s_currency := none }

/-- The `b_skipped := true` placeholder emitted for a stock that
already has a ticker (source lines 609-618): no lookup, no prices. -/
def skipRecord (t : String) : ResolutionResult :=
  { s_ticker := t, s_exchange_code := "", s_full_ticker := "", b_not_found := false,
    b_skipped := true, n_start_price := none, n_end_price := none, s_currency := none }

/-- Processing of one Mapping API response element (source lines
689-737): sentinel means not-found; otherwise sanitise the ticker,
append the exchange suffix, validate with yfinance; a failed
validation is also recorded as not-found. -/
def processMapItem (pp : PriceProvider) (s e : Nat) : MapResp → ResolutionResult
  | .noMatch => notFoundRR
  | .found tickerRaw exch =>
    let t := sanitise_ticker tickerRaw
    let full := t ++ map_exchange_to_suffix exch
    let v := validate_ticker_and_fetch_prices pp full s e
    if v.b_valid then
      { s_ticker := t, s_exchange_code := exch, s_full_ticker := full, b_not_found := false,
        b_skipped := false, n_start_price := v.n_start_price, n_end_price := v.n_end_price,
        s_currency := v.s_currency }
    else notFoundRR

/-- Body of `resolve_ticker_with_prices` after the search response
arrives (source lines 532-561): empty `data` or no validated best
result gives the not-found record, otherwise the best result is
unpacked.  (`b_skipped := false` is filled by the caller at source
line 762; the wrap at lines 757-766 copies every field.) -/
def searchOutcome (pp : PriceProvider) (cands : List Candidate) (name : String)
    (s e : Nat) : ResolutionResult :=
  if cands.isEmpty then notFoundRR
  else
    match select_and_validate_best_result pp cands name s e with
    | none => notFoundRR
    | some best =>
      { s_ticker := best.ticker, s_exchange_code := best.exchCode,
        s_full_ticker := best.s_full_ticker, b_not_found := false, b_skipped := false,
        n_start_price := best.n_start_price, n_end_price := best.n_end_price,
        s_currency := best.s_currency }

/-- `resolve_ticker_with_prices` (source lines 477-561): one Search
API call followed by the priority selector; transport/429/non-200
raises `ApiError`. -/
def resolve_ticker_with_prices (env : Env) (s_stock_name : String) (s e : Nat) :
    Except RunError ResolutionResult :=
  match env.searchApi s_stock_name with
  | .error msg => .error (.apiError msg)
  | .ok cands => .ok (searchOutcome env.pp cands s_stock_name s e)

/-- The categorisation pass of `resolve_tickers_batch_with_prices`
(source lines 596-628), carrying the running input index: per input
stock either a `skipRecord` (ticker present) or a `none` placeholder,
plus the index/stock lists of the ISIN-batchable and name-only
groups. -/
def categorize : List Stock → Nat →
    List (Option ResolutionResult) × List Nat × List Stock × List Nat × List Stock
  | [], _ => ([], [], [], [], [])
  | st :: rest, i =>
    let (rs, ii, istocks, ni, nstocks) := categorize rest (i + 1)
    if st.s_ticker ≠ "" then (some (skipRecord st.s_ticker) :: rs, ii, istocks, ni, nstocks)
    else if st.s_isin ≠ "" then (none :: rs, i :: ii, st :: istocks, ni, nstocks)
    else (none :: rs, ii, istocks, i :: ni, st :: nstocks)

/-- `OPENFIGI_BATCH_SIZE` (source line 76). -/
def OPENFIGI_BATCH_SIZE : Nat := 10

/-- The response-writing loop of one ISIN batch (source lines
685-737): the j-th response element is written at input position
`list_n_isin_indices[n_start_index + j]`; indexing past the end of the
index list is a Python `IndexError` (possible only when a response
holds more elements than were queried). -/
def writeResponses (env : Env) (s e : Nat) (isinIdx : List Nat) :
    Nat → List MapResp → List (Option ResolutionResult) →
    Except RunError (List (Option ResolutionResult))
  | _, [], results => .ok results
  | pos, r :: rs, results =>
    match isinIdx[pos]? with
    | none => .error .indexError
    | some orig =>
      writeResponses env s e isinIdx (pos + 1) rs
        (results.set orig (some (processMapItem env.pp s e r)))

/-- The ISIN batch loop of `resolve_tickers_batch_with_prices` (source
lines 640-743), structurally recursive on the remaining batch count:
batch `batchIdx` queries the slice
`[batchIdx*10, min(batchIdx*10+10, n))` of the ISIN stocks, makes one
Mapping API call, and writes the responses back.  The inter-batch
`time.sleep` is a pure no-op and is omitted. -/
def isinLoop (env : Env) (s e : Nat) (isinIdx : List Nat) (isinStocks : List Stock) :
    Nat → Nat → List (Option ResolutionResult) →
    Except RunError (List (Option ResolutionResult))
  | 0, _, results => .ok results
  | batchesLeft + 1, batchIdx, results =>
    let startIdx := batchIdx * OPENFIGI_BATCH_SIZE
    let stopIdx := min (startIdx + OPENFIGI_BATCH_SIZE) isinStocks.length
    let queries := ((isinStocks.drop startIdx).take (stopIdx - startIdx)).map
      (fun st => st.s_isin)
    match env.mapApi queries with
    | .error msg => .error (.apiError msg)
    | .ok resps =>
      match writeResponses env s e isinIdx startIdx resps results with
      | .error r => .error r
      | .ok results2 => isinLoop env s e isinIdx isinStocks batchesLeft (batchIdx + 1) results2

/-- The one-at-a-time name lookup loop (source lines 746-774), over
the zipped (original index, stock) pairs; the inter-call `time.sleep`
and progress prints are pure no-ops and are omitted. -/
def nameLoop (env : Env) (s e : Nat) :
    List (Nat × Stock) → List (Option ResolutionResult) →
    Except RunError (List (Option ResolutionResult))
  | [], results => .ok results
  | (orig, st) :: rest, results =>
    match resolve_ticker_with_prices env st.s_name s e with
    | .error r => .error r
    | .ok res => nameLoop env s e rest (results.set orig (some res))

/-- `resolve_tickers_batch_with_prices` (source lines 564-776):
categorise, early-return when nothing needs lookup, run the ISIN
batches (`math.ceil(n/10)` of them), then the name lookups.  The
returned list may still hold `none` placeholders (Python `None`) when
a Mapping response had fewer elements than its query batch. -/
def resolve_tickers_batch_with_prices (env : Env) (list_dict_stocks : List Stock)
    (s e : Nat) : Except RunError (List (Option ResolutionResult)) :=
  let (results, isinIdx, isinStocks, nameIdx, nameStocks) := categorize list_dict_stocks 0
  if isinStocks.length == 0 && nameStocks.length == 0 then .ok results
  else
    match isinLoop env s e isinIdx isinStocks
        ((isinStocks.length + OPENFIGI_BATCH_SIZE - 1) / OPENFIGI_BATCH_SIZE) 0 results with
    | .error r => .error r
    | .ok results2 => nameLoop env s e (nameIdx.zip nameStocks) results2

/-- A stock dictionary after `resolve_all_tickers` mutated it: name,
(possibly replaced) ticker, ISIN, the `b_not_found` flag (key absent
is indistinguishable from `False` through `dict.get`), and the cached
prices/currency (key absent indistinguishable from `None`). -/
structure EnrichedStock where
  s_name : String
  s_ticker : String
  s_isin : String
  b_not_found : Bool
  n_start_price : Option ℚ
  n_end_price : Option ℚ
  s_currency : Option String
deriving DecidableEq, Repr

/-- The per-stock mutation of `resolve_all_tickers` (source lines
810-829): skipped rows are untouched, not-found rows get an empty
ticker and the flag, found rows get the validated full ticker and the
cached prices. -/
def applyLookup (st : Stock) (r : ResolutionResult) : EnrichedStock :=
  if r.b_skipped then
    { s_name := st.s_name, s_ticker := st.s_ticker, s_isin := st.s_isin, b_not_found := false,
      n_start_price := none, n_end_price := none, s_currency := none }
  else if r.b_not_found then
    { s_name := st.s_name, s_ticker := "", s_isin := st.s_isin, b_not_found := true,
      n_start_price := none, n_end_price := none, s_currency := none }
  else
    { s_name := st.s_name, s_ticker := r.s_full_ticker, s_isin := st.s_isin,
      b_not_found := false, n_start_price := r.n_start_price, n_end_price := r.n_end_price,
      s_currency := r.s_currency }

/-- A stock dictionary `resolve_all_tickers` never touched. -/
def plainEnrich (st : Stock) : EnrichedStock :=
  { s_name := st.s_name, s_ticker := st.s_ticker, s_isin := st.s_isin, b_not_found := false,
    n_start_price := none, n_end_price := none, s_currency := none }

/-- The write-back loop of `resolve_all_tickers` (source lines
810-829): iterates the lookup results; `dict_lookup_result.get` on a
surviving `None` placeholder raises `AttributeError`. -/
def updateLoop : List Stock → List (Option ResolutionResult) →
    Except RunError (List EnrichedStock)
  | stocks, [] => .ok (stocks.map plainEnrich)
  | [], _ :: _ => .error .indexError
  | st :: sts, optR :: rest =>
    match optR with
    | none => .error .attributeError
    | some r =>
      match updateLoop sts rest with
      | .error x => .error x
      | .ok out => .ok (applyLookup st r :: out)

/-- `resolve_all_tickers` (source lines 779-831). -/
def resolve_all_tickers (env : Env) (list_dict_stocks : List Stock) (s e : Nat) :
    Except RunError (List EnrichedStock) :=
  match resolve_tickers_batch_with_prices env list_dict_stocks s e with
  | .error r => .error r
  | .ok results => updateLoop list_dict_stocks results

/-- `fetch_stock_price` (source lines 992-1025): 5-day window starting
at the requested date, first close; raises `StockDelistedError` when
the window is empty; a provider exception propagates. -/
def fetch_stock_price (pp : PriceProvider) (s_ticker : String) (d : Nat) : Except PErr ℚ :=
  match pp.history s_ticker d (d + 5) with
  | .error _ => .error .provider
  | .ok [] => .error .delistedE
  | .ok (c :: _) => .ok c

/-- `fetch_stock_currency` (source lines 1028-1043). -/
def fetch_stock_currency (pp : PriceProvider) (s_ticker : String) : Except PErr String :=
  match pp.info s_ticker with
  | .error _ => .error .provider
  | .ok copt => .ok (copt.getD "N/A")

/-- The final per-stock output record (source line 1165). -/
structure StockResult where
  s_name : String
  s_ticker : String
  s_isin : String
  n_start_price : Option ℚ
  n_end_price : Option ℚ
  n_percentage : Option ℚ
  s_currency : String
  s_error : String
deriving DecidableEq, Repr

/-- Rendering of an ordinal date into the note text; `strftime` with
`dd-mmm-yy` is abstracted by `toString` of the ordinal. -/
def fmtDate (n : Nat) : String := toString n

/-- The start-date adjustment note (source line 1201). -/
def startNote (d : Nat) (name : String) : String :=
  "Start date adjusted to " ++ fmtDate d ++ " (next trading day) for: " ++ name

/-- The end-date adjustment note (source line 1204). -/
def endNote (d : Nat) (name : String) : String :=
  "End date adjusted to " ++ fmtDate d ++ " (next trading day) for: " ++ name

/-- The initial result dictionary of `process_stock` (source line
1165): all price fields `None`, empty currency and error. -/
def baseResult (st : EnrichedStock) : StockResult :=
  { s_name := st.s_name, s_ticker := st.s_ticker, s_isin := st.s_isin,
    n_start_price := none, n_end_price := none, n_percentage := none,
    s_currency := "", s_error := "" }

/-- The live-fetch path of `process_stock` (source lines 1190-1226),
reached when no complete cached price set exists: adjust both dates,
collect the adjustment notes, fetch both prices (catching only
`StockDelistedError`, which becomes the `"Delisted"` error record),
then percentage and currency. -/
def processLive (pp : PriceProvider) (dict_stock : EnrichedStock) (s e : Nat) :
    Except PErr (StockResult × List String) :=
  let base := baseResult dict_stock
  let adjS := (adjust_to_trading_day s).1
  let bS := (adjust_to_trading_day s).2
  let adjE := (adjust_to_trading_day e).1
  let bE := (adjust_to_trading_day e).2
  let notes := (if bS then [startNote adjS dict_stock.s_name] else []) ++
               (if bE then [endNote adjE dict_stock.s_name] else [])
  match fetch_stock_price pp dict_stock.s_ticker adjS with
  | .error .delistedE => .ok ({ base with s_error := "Delisted" }, notes)
  | .error x => .error x
  | .ok p1 =>
    match fetch_stock_price pp dict_stock.s_ticker adjE with
    | .error .delistedE => .ok ({ base with s_error := "Delisted" }, notes)
    | .error x => .error x
    | .ok p2 =>
      match calculate_percentage_change p1 p2 with
      | .error x => .error x
      | .ok pct =>
        match fetch_stock_currency pp dict_stock.s_ticker with
        | .error x => .error x
        | .ok cur =>
          .ok ({ base with
                  n_start_price := some (round2 p1)
                  n_end_price := some (round2 p2)
                  n_percentage := some (round2 pct)
                  s_currency := cur }, notes)

/-- `process_stock` (source lines 1138-1226): not-found/empty-ticker
check first; then the cached-price fast path (which returns before the
date-adjustment notes are built); otherwise the live-fetch path.  Only
`StockDelistedError` is caught; any other exception propagates. -/
def process_stock (pp : PriceProvider) (dict_stock : EnrichedStock) (s e : Nat) :
    Except PErr (StockResult × List String) :=
  let base := baseResult dict_stock
  if dict_stock.b_not_found || dict_stock.s_ticker == "" then
    .ok ({ base with s_error := "Stock details not found" }, [])
  else
    match dict_stock.n_start_price, dict_stock.n_end_price, dict_stock.s_currency with
    | some sp, some ep, some cur =>
      match calculate_percentage_change sp ep with
      | .error x => .error x
      | .ok pct =>
        .ok ({ base with
                n_start_price := some (round2 sp)
                n_end_price := some (round2 ep)
                n_percentage := some (round2 pct)
                s_currency := cur }, [])
    | _, _, _ => processLive pp dict_stock s e

/-- Sequential positional writes `results[i] = some v` (Python list
assignment), the common shape of the response-merging loops. -/
def applyWrites : List (Nat × ResolutionResult) → List (Option ResolutionResult) →
    List (Option ResolutionResult)
  | [], res => res
  | (i, v) :: rest, res => applyWrites rest (res.set i (some v))

theorem applyWrites_length (ws : List (Nat × ResolutionResult))
    (res : List (Option ResolutionResult)) :
    (applyWrites ws res).length = res.length := by
  induction ws generalizing res with
  | nil => rfl
  | cons p rest ih =>
    cases p with
    | mk i v => rw [applyWrites, ih, List.length_set]

theorem applyWrites_append (ws1 ws2 : List (Nat × ResolutionResult))
    (res : List (Option ResolutionResult)) :
    applyWrites (ws1 ++ ws2) res = applyWrites ws2 (applyWrites ws1 res) := by
  induction ws1 generalizing res with
  | nil => rfl
  | cons p rest ih =>
    cases p with
    | mk i v => rw [List.cons_append, applyWrites, applyWrites, ih]

theorem applyWrites_getElem?_not_mem (ws : List (Nat × ResolutionResult))
    (res : List (Option ResolutionResult)) (j : Nat) (h : j ∉ ws.map Prod.fst) :
    (applyWrites ws res)[j]? = res[j]? := by
  induction ws generalizing res with
  | nil => rfl
  | cons p rest ih =>
    cases p with
    | mk i v =>
      simp only [List.map_cons, List.mem_cons, not_or] at h
      rw [applyWrites, ih _ h.2, List.getElem?_set_ne (fun hij => h.1 (hij.symm))]

theorem applyWrites_getElem?_mem (ws : List (Nat × ResolutionResult))
    (res : List (Option ResolutionResult)) (j : Nat) (v : ResolutionResult)
    (hnd : (ws.map Prod.fst).Nodup) (hmem : (j, v) ∈ ws) (hlt : j < res.length) :
    (applyWrites ws res)[j]? = some (some v) := by
  induction ws generalizing res with
  | nil => cases hmem
  | cons p rest ih =>
    cases p with
    | mk i w =>
      simp only [List.map_cons, List.nodup_cons] at hnd
      rcases List.mem_cons.mp hmem with heq | hmem2
      · cases heq
        rw [applyWrites, applyWrites_getElem?_not_mem _ _ _ hnd.1]
        exact List.getElem?_set_self hlt
      · rw [applyWrites]
        exact ih (res.set i (some w)) hnd.2 hmem2 (by simpa using hlt)

theorem applyWrites_getElem?_isSome (ws : List (Nat × ResolutionResult))
    (res : List (Option ResolutionResult)) (j : Nat)
    (hmem : j ∈ ws.map Prod.fst) (hlt : j < res.length) :
    ∃ v, (applyWrites ws res)[j]? = some (some v) := by
  induction ws generalizing res with
  | nil => cases hmem
  | cons p rest ih =>
    cases p with
    | mk i w =>
      by_cases hj : j ∈ rest.map Prod.fst
      · rw [applyWrites]
        exact ih (res.set i (some w)) hj (by simpa using hlt)
      · have hji : j = i := by
          rcases List.mem_cons.mp hmem with h | h
          · exact h
          · exact absurd h hj
        subst hji
        refine ⟨w, ?_⟩
        rw [applyWrites, applyWrites_getElem?_not_mem _ _ _ hj]
        exact List.getElem?_set_self hlt

/-- One ISIN batch writes the slice of the index list starting at
`pos`, in order, pairing each response with its processed record. -/
theorem writeResponses_eq (env : Env) (s e : Nat) (isinIdx : List Nat)
    (resps : List MapResp) :
    ∀ pos results, pos + resps.length ≤ isinIdx.length →
    writeResponses env s e isinIdx pos resps results =
      .ok (applyWrites (((isinIdx.drop pos).take resps.length).zip
        (resps.map (processMapItem env.pp s e))) results) := by
  induction resps with
  | nil =>
    intro pos results h
    rw [writeResponses]
    rfl
  | cons r rs ih =>
    intro pos results h
    have hpos : pos < isinIdx.length := by
      simp only [List.length_cons] at h
      omega
    rw [writeResponses]
    simp only [List.getElem?_eq_getElem hpos]
    rw [List.drop_eq_getElem_cons hpos]
    simp only [List.length_cons, List.take_succ_cons, List.map_cons, List.zip_cons_cons]
    rw [applyWrites]
    exact ih (pos + 1) _ (by simp only [List.length_cons] at h; omega)

/-- Classification predicate of the ISIN branch (source line 619):
no ticker, but an ISIN. -/
def isinClass (st : Stock) : Bool := decide (¬ st.s_ticker ≠ "" ∧ st.s_isin ≠ "")

/-- Classification predicate of the name branch (source line 624):
neither ticker nor ISIN. -/
def nameClass (st : Stock) : Bool := decide (¬ st.s_ticker ≠ "" ∧ ¬ st.s_isin ≠ "")

/-- The initial per-stock entry of the result list: a skip record for
stocks with a ticker, a `None` placeholder otherwise. -/
def initEntry (st : Stock) : Option ResolutionResult :=
  if st.s_ticker ≠ "" then some (skipRecord st.s_ticker) else none

theorem categorize_results (stocks : List Stock) (i : Nat) :
    (categorize stocks i).1 = stocks.map initEntry := by
  induction stocks generalizing i with
  | nil => rfl
  | cons st rest ih =>
    rw [categorize]
    rcases h : categorize rest (i + 1) with ⟨rs, ii, istk, ni, nstk⟩
    have hrs : rs = rest.map initEntry := by
      have := ih (i + 1)
      rw [h] at this
      exact this
    by_cases h1 : st.s_ticker ≠ ""
    · simp [h1, hrs, initEntry]
    · by_cases h2 : st.s_isin ≠ "" <;> simp [h1, h2, hrs, initEntry]

theorem categorize_zip_isin (stocks : List Stock) (i : Nat) :
    (categorize stocks i).2.1.zip (categorize stocks i).2.2.1 =
      (stocks.enumFrom i).filter (fun p => isinClass p.2) := by
  induction stocks generalizing i with
  | nil => rfl
  | cons st rest ih =>
    rw [categorize]
    rcases h : categorize rest (i + 1) with ⟨rs, ii, istk, ni, nstk⟩
    have hz : ii.zip istk = (rest.enumFrom (i + 1)).filter (fun p => isinClass p.2) := by
      have := ih (i + 1)
      rw [h] at this
      exact this
    rw [List.enumFrom_cons]
    by_cases h1 : st.s_ticker ≠ ""
    · simp [h1, hz, List.filter_cons, isinClass]
    · have h1' : st.s_ticker = "" := not_not.mp h1
      by_cases h2 : st.s_isin ≠ "" <;>
        simp [h1, h1', h2, hz, List.filter_cons, isinClass]

theorem categorize_zip_name (stocks : List Stock) (i : Nat) :
    (categorize stocks i).2.2.2.1.zip (categorize stocks i).2.2.2.2 =
      (stocks.enumFrom i).filter (fun p => nameClass p.2) := by
  induction stocks generalizing i with
  | nil => rfl
  | cons st rest ih =>
    rw [categorize]
    rcases h : categorize rest (i + 1) with ⟨rs, ii, istk, ni, nstk⟩
    have hz : ni.zip nstk = (rest.enumFrom (i + 1)).filter (fun p => nameClass p.2) := by
      have := ih (i + 1)
      rw [h] at this
      exact this
    rw [List.enumFrom_cons]
    by_cases h1 : st.s_ticker ≠ ""
    · simp [h1, hz, List.filter_cons, nameClass]
    · have h1' : st.s_ticker = "" := not_not.mp h1
      by_cases h2 : st.s_isin ≠ ""
      · simp [h1, h1', h2, hz, List.filter_cons, nameClass]
      · have h2' : st.s_isin = "" := not_not.mp h2
        simp [h1, h1', h2, h2', hz, List.filter_cons, nameClass]

theorem categorize_len_isin (stocks : List Stock) (i : Nat) :
    (categorize stocks i).2.1.length = (categorize stocks i).2.2.1.length := by
  induction stocks generalizing i with
  | nil => rfl
  | cons st rest ih =>
    rw [categorize]
    rcases h : categorize rest (i + 1) with ⟨rs, ii, istk, ni, nstk⟩
    have hl : ii.length = istk.length := by
      have := ih (i + 1)
      rw [h] at this
      exact this
    by_cases h1 : st.s_ticker ≠ ""
    · simpa [h1] using hl
    · by_cases h2 : st.s_isin ≠ "" <;> simp [h1, h2, hl]

theorem categorize_len_name (stocks : List Stock) (i : Nat) :
    (categorize stocks i).2.2.2.1.length = (categorize stocks i).2.2.2.2.length := by
  induction stocks generalizing i with
  | nil => rfl
  | cons st rest ih =>
    rw [categorize]
    rcases h : categorize rest (i + 1) with ⟨rs, ii, istk, ni, nstk⟩
    have hl : ni.length = nstk.length := by
      have := ih (i + 1)
      rw [h] at this
      exact this
    by_cases h1 : st.s_ticker ≠ ""
    · simpa [h1] using hl
    · by_cases h2 : st.s_isin ≠ "" <;> simp [h1, h2, hl]

theorem drop_take_append {α : Type} (l : List α) (a L1 L2 : Nat) :
    (l.drop a).take L1 ++ (l.drop (a + L1)).take L2 = (l.drop a).take (L1 + L2) := by
  rw [List.take_add, List.drop_drop]

/-- Two consecutive slice writes cover one larger slice. -/
theorem zip_slice_combine {β γ : Type} (idx : List Nat) (stk : List β) (F : β → γ)
    (hlen : idx.length = stk.length) (a k : Nat) :
    ((idx.drop a).take (min 10 (stk.length - a))).zip
        (((stk.drop a).take (min 10 (stk.length - a))).map F) ++
      ((idx.drop (a + 10)).take (min (k * 10) (stk.length - (a + 10)))).zip
        (((stk.drop (a + 10)).take (min (k * 10) (stk.length - (a + 10)))).map F) =
    ((idx.drop a).take (min (k * 10 + 10) (stk.length - a))).zip
        (((stk.drop a).take (min (k * 10 + 10) (stk.length - a))).map F) := by
  by_cases hc : stk.length - a ≤ 10
  · have h2 : stk.length - (a + 10) = 0 := by omega
    have h1 : min 10 (stk.length - a) = stk.length - a := by omega
    have h3 : min (k * 10 + 10) (stk.length - a) = stk.length - a := by omega
    simp [h1, h2, h3]
  · have h1 : min 10 (stk.length - a) = 10 := by omega
    have h2 : stk.length - (a + 10) = stk.length - a - 10 := by omega
    have h3 : min (k * 10 + 10) (stk.length - a) = 10 + min (k * 10) (stk.length - a - 10) :=
      by omega
    rw [h1, h2, h3]
    rw [← drop_take_append idx a 10 (min (k * 10) (stk.length - a - 10)),
        ← drop_take_append stk a 10 (min (k * 10) (stk.length - a - 10)),
        List.map_append,
        List.zip_append (by
          simp only [List.length_take, List.length_drop, List.length_map]
          omega)]

/-- Under a Mapping endpoint that answers every query item pointwise
(one response per query, in request order), the ISIN batch loop
starting at batch `b` with `k` batches to go writes exactly the
processed response of every stock in the remaining slice, at the
matching position of the index list. -/
theorem isinLoop_point (env : Env) (s e : Nat) (f : String → MapResp)
    (Hmap : ∀ qs, env.mapApi qs = .ok (qs.map f))
    (isinIdx : List Nat) (isinStocks : List Stock)
    (hlen : isinIdx.length = isinStocks.length) :
    ∀ k b results,
      isinLoop env s e isinIdx isinStocks k b results =
        .ok (applyWrites
          (((isinIdx.drop (b * 10)).take (min (k * 10) (isinStocks.length - b * 10))).zip
            (((isinStocks.drop (b * 10)).take
                (min (k * 10) (isinStocks.length - b * 10))).map
              (fun st => processMapItem env.pp s e (f st.s_isin)))) results) := by
  intro k
  induction k with
  | zero =>
    intro b results
    simp [isinLoop, applyWrites]
  | succ k ih =>
    intro b results
    simp only [isinLoop, OPENFIGI_BATCH_SIZE]
    by_cases hab : isinStocks.length ≤ b * 10
    · have hq : isinStocks.drop (b * 10) = [] := List.drop_eq_nil_of_le hab
      have h0 : isinStocks.length - b * 10 = 0 := by omega
      have h0' : isinStocks.length - (b + 1) * 10 = 0 := by omega
      simp only [hq, List.take_nil, List.map_nil, Hmap, writeResponses]
      rw [ih (b + 1) results]
      simp [h0, h0', applyWrites]
    · have hL : min (b * 10 + 10) isinStocks.length - b * 10
          = min 10 (isinStocks.length - b * 10) := by omega
      rw [hL]
      simp only [Hmap]
      rw [writeResponses_eq env s e isinIdx _ (b * 10) results (by
        simp only [List.length_map, List.length_take, List.length_drop]
        omega)]
      simp only [ih (b + 1)]
      rw [← applyWrites_append]
      congr 1
      have harith : (b + 1) * 10 = b * 10 + 10 := by ring
      have harith2 : (k + 1) * 10 = k * 10 + 10 := by ring
      rw [harith, harith2]
      have hmm : ((((isinStocks.drop (b * 10)).take
          (min 10 (isinStocks.length - b * 10))).map (fun st => st.s_isin)).map f).map
            (processMapItem env.pp s e) =
          ((isinStocks.drop (b * 10)).take (min 10 (isinStocks.length - b * 10))).map
            (fun st => processMapItem env.pp s e (f st.s_isin)) := by
        simp only [List.map_map]
        rfl
      have hql : ((((isinStocks.drop (b * 10)).take
          (min 10 (isinStocks.length - b * 10))).map (fun st => st.s_isin)).map f).length =
          min 10 (isinStocks.length - b * 10) := by
        simp only [List.length_map, List.length_take, List.length_drop]
        omega
      rw [hql, hmm]
      congr 1
      exact zip_slice_combine isinIdx isinStocks _ hlen (b * 10) k

/-- Under a Search endpoint that answers every name, the name loop
writes the selector outcome of each stock at its paired position. -/
theorem nameLoop_point (env : Env) (s e : Nat) (g : String → List Candidate)
    (Hsearch : ∀ nm, env.searchApi nm = .ok (g nm)) :
    ∀ pairs results,
      nameLoop env s e pairs results =
        .ok (applyWrites (pairs.map (fun p =>
          (p.1, searchOutcome env.pp (g p.2.s_name) p.2.s_name s e))) results) := by
  intro pairs
  induction pairs with
  | nil =>
    intro results
    rfl
  | cons p rest ih =>
    intro results
    cases p with
    | mk orig st =>
      simp only [nameLoop, resolve_ticker_with_prices, Hsearch, List.map_cons, applyWrites]
      exact ih _

theorem mem_keys_classification (stocks : List Stock) (p : Stock → Bool) (j : Nat)
    (hj : j ∈ ((stocks.enumFrom 0).filter (fun q => p q.2)).map Prod.fst) :
    ∃ h : j < stocks.length, p (stocks.get ⟨j, h⟩) = true := by
  rcases List.mem_map.mp hj with ⟨q, hqmem, hq1⟩
  rcases List.mem_filter.mp hqmem with ⟨henum, hp⟩
  rcases List.mem_enumFrom henum with ⟨_, hlt, hval⟩
  subst hq1
  refine ⟨by simpa using hlt, ?_⟩
  rw [List.get_eq_getElem]
  have hp2 : p (stocks[q.1 - 0]) = true := by
    rw [← hval]
    exact hp
  simpa using hp2

theorem pair_mem_filtered (stocks : List Stock) (p : Stock → Bool) (j : Nat)
    (h : j < stocks.length) (hp : p stocks[j] = true) :
    (j, stocks[j]) ∈ (stocks.enumFrom 0).filter (fun q => p q.2) := by
  refine List.mem_filter.mpr ⟨?_, hp⟩
  refine List.mem_iff_getElem?.mpr ⟨j, ?_⟩
  rw [List.getElem?_enumFrom, List.getElem?_eq_getElem h]
  simp

theorem filtered_keys_nodup (stocks : List Stock) (p : Stock → Bool) :
    (((stocks.enumFrom 0).filter (fun q => p q.2)).map Prod.fst).Nodup := by
  have hsub : (((stocks.enumFrom 0).filter (fun q => p q.2)).map Prod.fst).Sublist
      ((stocks.enumFrom 0).map Prod.fst) :=
    List.Sublist.map Prod.fst (List.filter_sublist _)
  refine hsub.nodup ?_
  rw [List.enumFrom_map_fst]
  exact List.nodup_range' 0 stocks.length

/-- The per-stock expected outcome of one batch resolution (spec
section 4.4): a skip placeholder for pre-ticketed stocks, the
processed Mapping response for ISIN stocks, the search selector
outcome for name-only stocks. -/
def expectedResolution (pp : PriceProvider) (f : String → MapResp)
    (g : String → List Candidate) (s e : Nat) (st : Stock) : ResolutionResult :=
  if st.s_ticker ≠ "" then skipRecord st.s_ticker
  else if st.s_isin ≠ "" then processMapItem pp s e (f st.s_isin)
  else searchOutcome pp (g st.s_name) st.s_name s e

theorem keys_map_snd_update {α β γ : Type} (l : List (α × β)) (F : β → γ) :
    (l.map (Prod.map id F)).map Prod.fst = l.map Prod.fst := by
  rw [List.map_map]
  apply List.map_congr_left
  intro q _
  cases q
  rfl

theorem keys_map_pairfun {α β γ : Type} (l : List (α × β)) (F : α × β → γ) :
    (l.map (fun q => (q.1, F q))).map Prod.fst = l.map Prod.fst := by
  rw [List.map_map]
  apply List.map_congr_left
  intro q _
  cases q
  rfl

/-- C2: under mapping/search endpoints that answer one response per
query item in request order (pointwise `f` on the Mapping endpoint,
`g` on the Search endpoint), the batch resolver returns a list of
exactly the input length whose `j`-th element is the resolution of the
`j`-th input stock regardless of the branch that produced it: the skip
placeholder (`b_skipped = true`, no prices — built without any price
fetch) for pre-ticketed inputs, the Mapping-branch outcome for ISIN
inputs, and the name-search outcome for name-only inputs. -/
theorem C2_batch_resolver_positional (env : Env) (stocks : List Stock) (s e : Nat)
    (f : String → MapResp) (g : String → List Candidate)
    (Hmap : ∀ qs, env.mapApi qs = .ok (qs.map f))
    (Hsearch : ∀ nm, env.searchApi nm = .ok (g nm)) :
    resolve_tickers_batch_with_prices env stocks s e =
      .ok (stocks.map (fun st => some (expectedResolution env.pp f g s e st))) := by
  rcases hcat : categorize stocks 0 with ⟨res0, ii, istk, ni, nstk⟩
  have hres0 : res0 = stocks.map initEntry := by
    have h := categorize_results stocks 0
    rw [hcat] at h
    exact h
  have hzipI : ii.zip istk = (stocks.enumFrom 0).filter (fun q => isinClass q.2) := by
    have h := categorize_zip_isin stocks 0
    rw [hcat] at h
    exact h
  have hzipN : ni.zip nstk = (stocks.enumFrom 0).filter (fun q => nameClass q.2) := by
    have h := categorize_zip_name stocks 0
    rw [hcat] at h
    exact h
  have hlenI : ii.length = istk.length := by
    have h := categorize_len_isin stocks 0
    rw [hcat] at h
    exact h
  have hlenN : ni.length = nstk.length := by
    have h := categorize_len_name stocks 0
    rw [hcat] at h
    exact h
  simp only [resolve_tickers_batch_with_prices, hcat]
  by_cases hz : (istk.length == 0 && nstk.length == 0) = true
  · rw [if_pos hz]
    simp only [Bool.and_eq_true, beq_iff_eq] at hz
    have hallt : ∀ st ∈ stocks, st.s_ticker ≠ "" := by
      intro st hst
      by_contra hte
      rcases List.mem_iff_getElem?.mp hst with ⟨j, hj⟩
      rcases List.getElem?_eq_some.mp hj with ⟨hlt, hval⟩
      by_cases hisin : st.s_isin ≠ ""
      · have hcl : isinClass stocks[j] = true := by
          rw [hval]
          simp [isinClass, hte, hisin]
        have hmem := pair_mem_filtered stocks isinClass j hlt hcl
        rw [← hzipI] at hmem
        have : istk = [] := List.eq_nil_of_length_eq_zero hz.1
        rw [this, List.zip_nil_right] at hmem
        cases hmem
      · have hcl : nameClass stocks[j] = true := by
          rw [hval]
          simp [nameClass, hte]
          exact not_not.mp hisin
        have hmem := pair_mem_filtered stocks nameClass j hlt hcl
        rw [← hzipN] at hmem
        have : nstk = [] := List.eq_nil_of_length_eq_zero hz.2
        rw [this, List.zip_nil_right] at hmem
        cases hmem
    rw [hres0]
    congr 1
    apply List.map_congr_left
    intro st hst
    simp [initEntry, expectedResolution, hallt st hst]
  · rw [if_neg hz]
    simp only [isinLoop_point env s e f Hmap ii istk (by rw [hlenI]), OPENFIGI_BATCH_SIZE]
    rw [nameLoop_point env s e g Hsearch]
    have hmin : min (((istk.length + 10 - 1) / 10) * 10) (istk.length - 0 * 10)
        = istk.length := by omega
    rw [hmin]
    simp only [Nat.zero_mul, List.drop_zero]
    rw [List.take_length]
    have htkii : ii.take istk.length = ii := by
      rw [← hlenI]
      exact List.take_length ii
    rw [htkii, List.zip_map_right, hzipI, hzipN, ← applyWrites_append]
    congr 1
    apply List.ext_getElem?
    intro j
    by_cases hjl : j < stocks.length
    · have hrhs : (stocks.map (fun st => some (expectedResolution env.pp f g s e st)))[j]? =
          some (some (expectedResolution env.pp f g s e stocks[j])) := by
        rw [List.getElem?_map, List.getElem?_eq_getElem hjl]
        rfl
      rw [hrhs]
      have hlt0 : j < res0.length := by
        rw [hres0, List.length_map]
        exact hjl
      by_cases ht : stocks[j].s_ticker ≠ ""
      · have hnotI : j ∉ (((stocks.enumFrom 0).filter
            (fun q => isinClass q.2)).map Prod.fst) := by
          intro hmem
          rcases mem_keys_classification stocks isinClass j hmem with ⟨h', hcl⟩
          rw [List.get_eq_getElem] at hcl
          simp only [isinClass, decide_eq_true_eq] at hcl
          exact hcl.1 ht
        have hnotN : j ∉ (((stocks.enumFrom 0).filter
            (fun q => nameClass q.2)).map Prod.fst) := by
          intro hmem
          rcases mem_keys_classification stocks nameClass j hmem with ⟨h', hcl⟩
          rw [List.get_eq_getElem] at hcl
          simp only [nameClass, decide_eq_true_eq] at hcl
          exact hcl.1 ht
        rw [applyWrites_getElem?_not_mem _ _ _ (by
          rw [List.map_append, keys_map_snd_update, keys_map_pairfun]
          rw [List.mem_append]
          push_neg
          exact ⟨hnotI, hnotN⟩)]
        rw [hres0, List.getElem?_map, List.getElem?_eq_getElem hjl]
        simp only [Option.map_some']
        rw [initEntry, expectedResolution, if_pos ht, if_pos ht]
      · by_cases hisin : stocks[j].s_isin ≠ ""
        · have hcl : isinClass stocks[j] = true := by
            simp only [isinClass, decide_eq_true_eq]
            exact ⟨ht, hisin⟩
          have hpair := pair_mem_filtered stocks isinClass j hjl hcl
          have hmemI : (j, processMapItem env.pp s e (f stocks[j].s_isin)) ∈
              ((stocks.enumFrom 0).filter (fun q => isinClass q.2)).map
                (Prod.map id (fun st => processMapItem env.pp s e (f st.s_isin))) :=
            List.mem_map_of_mem _ hpair
          rw [applyWrites_getElem?_mem _ _ j _ (by
              rw [List.map_append, keys_map_snd_update, keys_map_pairfun]
              exact List.Nodup.append (filtered_keys_nodup stocks isinClass)
                (filtered_keys_nodup stocks nameClass) (by
                  intro a ha1 ha2
                  rcases mem_keys_classification stocks isinClass a ha1 with ⟨h1, hc1⟩
                  rcases mem_keys_classification stocks nameClass a ha2 with ⟨h2, hc2⟩
                  rw [List.get_eq_getElem] at hc1 hc2
                  simp only [isinClass, decide_eq_true_eq] at hc1
                  simp only [nameClass, decide_eq_true_eq] at hc2
                  exact hc2.2 hc1.2))
            (List.mem_append_left _ hmemI) hlt0]
          rw [expectedResolution, if_neg ht, if_pos hisin]
        · have hcl : nameClass stocks[j] = true := by
            simp only [nameClass, decide_eq_true_eq]
            exact ⟨ht, hisin⟩
          have hpair := pair_mem_filtered stocks nameClass j hjl hcl
          have hmemN : (j, searchOutcome env.pp (g stocks[j].s_name) stocks[j].s_name s e) ∈
              ((stocks.enumFrom 0).filter (fun q => nameClass q.2)).map
                (fun p => (p.1, searchOutcome env.pp (g p.2.s_name) p.2.s_name s e)) :=
            List.mem_map_of_mem _ hpair
          rw [applyWrites_getElem?_mem _ _ j _ (by
              rw [List.map_append, keys_map_snd_update, keys_map_pairfun]
              exact List.Nodup.append (filtered_keys_nodup stocks isinClass)
                (filtered_keys_nodup stocks nameClass) (by
                  intro a ha1 ha2
                  rcases mem_keys_classification stocks isinClass a ha1 with ⟨h1, hc1⟩
                  rcases mem_keys_classification stocks nameClass a ha2 with ⟨h2, hc2⟩
                  rw [List.get_eq_getElem] at hc1 hc2
                  simp only [isinClass, decide_eq_true_eq] at hc1
                  simp only [nameClass, decide_eq_true_eq] at hc2
                  exact hc2.2 hc1.2))
            (List.mem_append_right _ hmemN) hlt0]
          rw [expectedResolution, if_neg ht, if_neg hisin]
    · have hl1 : (applyWrites
          ((((stocks.enumFrom 0).filter (fun q => isinClass q.2)).map
            (Prod.map id (fun st => processMapItem env.pp s e (f st.s_isin)))) ++
           (((stocks.enumFrom 0).filter (fun q => nameClass q.2)).map
            (fun p => (p.1, searchOutcome env.pp (g p.2.s_name) p.2.s_name s e))))
          res0).length = res0.length := applyWrites_length _ _
      rw [List.getElem?_eq_none (by
            rw [hl1, hres0, List.length_map]
            omega),
          List.getElem?_eq_none (by
            rw [List.length_map]
            omega)]

/-- Position `j` of the working result list holds a populated (non-
`None`) record. -/
def coveredAt (j : Nat) (res : List (Option ResolutionResult)) : Prop :=
  ∃ v, res[j]? = some (some v)

theorem coveredAt_set (j i : Nat) (v : ResolutionResult)
    (res : List (Option ResolutionResult)) (h : coveredAt j res) :
    coveredAt j (res.set i (some v)) := by
  rcases h with ⟨w, hw⟩
  by_cases hij : i = j
  · subst hij
    rcases List.getElem?_eq_some.mp hw with ⟨hlt, _⟩
    exact ⟨v, List.getElem?_set_self hlt⟩
  · exact ⟨w, by rw [List.getElem?_set_ne hij]; exact hw⟩

theorem coveredAt_set_self (i : Nat) (v : ResolutionResult)
    (res : List (Option ResolutionResult)) (hlt : i < res.length) :
    coveredAt i (res.set i (some v)) :=
  ⟨v, List.getElem?_set_self hlt⟩

theorem writeResponses_length (env : Env) (s e : Nat) (isinIdx : List Nat) :
    ∀ resps pos results res',
      writeResponses env s e isinIdx pos resps results = .ok res' →
      res'.length = results.length := by
  intro resps
  induction resps with
  | nil =>
    intro pos results res' h
    rw [writeResponses] at h
    cases h
    rfl
  | cons r rs ih =>
    intro pos results res' h
    rw [writeResponses] at h
    cases hidx : isinIdx[pos]? with
    | none => rw [hidx] at h; cases h
    | some orig =>
      rw [hidx] at h
      have := ih (pos + 1) _ _ h
      rw [this, List.length_set]

theorem writeResponses_mono (env : Env) (s e : Nat) (isinIdx : List Nat) (j : Nat) :
    ∀ resps pos results res',
      writeResponses env s e isinIdx pos resps results = .ok res' →
      coveredAt j results → coveredAt j res' := by
  intro resps
  induction resps with
  | nil =>
    intro pos results res' h hc
    rw [writeResponses] at h
    cases h
    exact hc
  | cons r rs ih =>
    intro pos results res' h hc
    rw [writeResponses] at h
    cases hidx : isinIdx[pos]? with
    | none => rw [hidx] at h; cases h
    | some orig =>
      rw [hidx] at h
      exact ih (pos + 1) _ _ h (coveredAt_set j orig _ _ hc)

theorem writeResponses_covers (env : Env) (s e : Nat) (isinIdx : List Nat) :
    ∀ resps pos results res',
      writeResponses env s e isinIdx pos resps results = .ok res' →
      ∀ p, pos ≤ p → p < pos + resps.length →
      ∀ hp : p < isinIdx.length, isinIdx[p] < results.length →
      coveredAt isinIdx[p] res' := by
  intro resps
  induction resps with
  | nil =>
    intro pos results res' h p h1 h2
    simp only [List.length_nil] at h2
    omega
  | cons r rs ih =>
    intro pos results res' h p h1 h2 hp hq
    rw [writeResponses] at h
    cases hidx : isinIdx[pos]? with
    | none => rw [hidx] at h; cases h
    | some orig =>
      rw [hidx] at h
      by_cases hpe : p = pos
      · have horig : isinIdx[p] = orig := by
          have h1 : isinIdx[p]? = some orig := by
            rw [hpe]
            exact hidx
          rw [List.getElem?_eq_getElem hp] at h1
          exact Option.some.inj h1
        rw [horig]
        exact writeResponses_mono env s e isinIdx orig rs (pos + 1) _ _ h
          (coveredAt_set_self orig _ _ (horig ▸ hq))
      · exact ih (pos + 1) _ _ h p (by omega)
          (by simp only [List.length_cons] at h2; omega) hp
          (by rw [List.length_set]; exact hq)

theorem isinLoop_length (env : Env) (s e : Nat) (isinIdx : List Nat)
    (isinStocks : List Stock) :
    ∀ k b results res',
      isinLoop env s e isinIdx isinStocks k b results = .ok res' →
      res'.length = results.length := by
  intro k
  induction k with
  | zero =>
    intro b results res' h
    rw [isinLoop] at h
    cases h
    rfl
  | succ k ih =>
    intro b results res' h
    rw [isinLoop] at h
    cases hm : env.mapApi (((isinStocks.drop (b * OPENFIGI_BATCH_SIZE)).take
        (min (b * OPENFIGI_BATCH_SIZE + OPENFIGI_BATCH_SIZE) isinStocks.length -
          b * OPENFIGI_BATCH_SIZE)).map (fun st => st.s_isin)) with
    | error msg =>
      simp only [hm] at h
      exact Except.noConfusion h
    | ok resps =>
      simp only [hm] at h
      cases hw : writeResponses env s e isinIdx (b * OPENFIGI_BATCH_SIZE) resps results with
      | error r =>
        simp only [hw] at h
        exact Except.noConfusion h
      | ok results2 =>
        simp only [hw] at h
        rw [ih (b + 1) results2 res' h]
        exact writeResponses_length env s e isinIdx resps _ results results2 hw

theorem isinLoop_mono (env : Env) (s e : Nat) (isinIdx : List Nat)
    (isinStocks : List Stock) (j : Nat) :
    ∀ k b results res',
      isinLoop env s e isinIdx isinStocks k b results = .ok res' →
      coveredAt j results → coveredAt j res' := by
  intro k
  induction k with
  | zero =>
    intro b results res' h hc
    rw [isinLoop] at h
    cases h
    exact hc
  | succ k ih =>
    intro b results res' h hc
    rw [isinLoop] at h
    cases hm : env.mapApi (((isinStocks.drop (b * OPENFIGI_BATCH_SIZE)).take
        (min (b * OPENFIGI_BATCH_SIZE + OPENFIGI_BATCH_SIZE) isinStocks.length -
          b * OPENFIGI_BATCH_SIZE)).map (fun st => st.s_isin)) with
    | error msg =>
      simp only [hm] at h
      exact Except.noConfusion h
    | ok resps =>
      simp only [hm] at h
      cases hw : writeResponses env s e isinIdx (b * OPENFIGI_BATCH_SIZE) resps results with
      | error r =>
        simp only [hw] at h
        exact Except.noConfusion h
      | ok results2 =>
        simp only [hw] at h
        exact ih (b + 1) results2 res' h
          (writeResponses_mono env s e isinIdx j resps _ results results2 hw hc)

theorem nameLoop_length (env : Env) (s e : Nat) :
    ∀ pairs results res',
      nameLoop env s e pairs results = .ok res' →
      res'.length = results.length := by
  intro pairs
  induction pairs with
  | nil =>
    intro results res' h
    cases h
    rfl
  | cons p rest ih =>
    intro results res' h
    cases p with
    | mk orig st =>
      rw [nameLoop] at h
      cases hr : resolve_ticker_with_prices env st.s_name s e with
      | error r => rw [hr] at h; cases h
      | ok v =>
        rw [hr] at h
        rw [ih _ res' h, List.length_set]

theorem nameLoop_mono (env : Env) (s e : Nat) (j : Nat) :
    ∀ pairs results res',
      nameLoop env s e pairs results = .ok res' →
      coveredAt j results → coveredAt j res' := by
  intro pairs
  induction pairs with
  | nil =>
    intro results res' h hc
    cases h
    exact hc
  | cons p rest ih =>
    intro results res' h hc
    cases p with
    | mk orig st =>
      rw [nameLoop] at h
      cases hr : resolve_ticker_with_prices env st.s_name s e with
      | error r => rw [hr] at h; cases h
      | ok v =>
        rw [hr] at h
        exact ih _ res' h (coveredAt_set j orig _ _ hc)

theorem nameLoop_covers (env : Env) (s e : Nat) :
    ∀ pairs results res',
      nameLoop env s e pairs results = .ok res' →
      ∀ orig st, (orig, st) ∈ pairs → orig < results.length →
      coveredAt orig res' := by
  intro pairs
  induction pairs with
  | nil =>
    intro results res' h orig st hmem
    cases hmem
  | cons p rest ih =>
    intro results res' h orig st hmem hlt
    cases p with
    | mk orig1 st1 =>
      rw [nameLoop] at h
      cases hr : resolve_ticker_with_prices env st1.s_name s e with
      | error r => rw [hr] at h; cases h
      | ok v =>
        rw [hr] at h
        rcases List.mem_cons.mp hmem with heq | hmem2
        · cases heq
          exact nameLoop_mono env s e orig rest _ res' h
            (coveredAt_set_self orig v _ hlt)
        · exact ih _ res' h orig st hmem2 (by rw [List.length_set]; exact hlt)

/-- When every Mapping call answers one response per query item, the
batch loop populates every index-list position of the slice it is
responsible for. -/
theorem isinLoop_covers (env : Env) (s e : Nat)
    (Hcount : ∀ qs r, env.mapApi qs = .ok r → r.length = qs.length)
    (isinIdx : List Nat) (isinStocks : List Stock) :
    ∀ k b results res',
      isinLoop env s e isinIdx isinStocks k b results = .ok res' →
      (∀ x ∈ isinIdx, x < results.length) →
      ∀ p, b * 10 ≤ p → p < min (b * 10 + k * 10) isinStocks.length →
      ∀ hp : p < isinIdx.length, coveredAt isinIdx[p] res' := by
  intro k
  induction k with
  | zero =>
    intro b results res' h hb p h1 h2 hp
    omega
  | succ k ih =>
    intro b results res' h hb p h1 h2 hp
    rw [isinLoop] at h
    simp only [OPENFIGI_BATCH_SIZE] at h
    cases hm : env.mapApi (((isinStocks.drop (b * 10)).take
        (min (b * 10 + 10) isinStocks.length - b * 10)).map (fun st => st.s_isin)) with
    | error msg =>
      simp only [hm] at h
      exact Except.noConfusion h
    | ok resps =>
      simp only [hm] at h
      have hrl : resps.length =
          min (min (b * 10 + 10) isinStocks.length - b * 10)
            (isinStocks.length - b * 10) := by
        have := Hcount _ _ hm
        simpa [List.length_map, List.length_take, List.length_drop] using this
      cases hw : writeResponses env s e isinIdx (b * 10) resps results with
      | error r =>
        simp only [hw] at h
        exact Except.noConfusion h
      | ok results2 =>
        simp only [hw] at h
        have hlen2 : results2.length = results.length :=
          writeResponses_length env s e isinIdx resps (b * 10) results results2 hw
        by_cases hcase : p < b * 10 + resps.length
        · exact isinLoop_mono env s e isinIdx isinStocks isinIdx[p] k (b + 1) results2
            res' h
            (writeResponses_covers env s e isinIdx resps (b * 10) results results2 hw
              p h1 hcase hp (hb _ (List.getElem_mem hp)))
        · refine ih (b + 1) results2 res' h
            (fun x hx => by rw [hlen2]; exact hb x hx) p (by omega) (by omega) hp

/-- The Mapping endpoint that always answers with an empty response
list (fewer items than queried). -/
def envShort : Env :=
  { mapApi := fun _ => .ok [], searchApi := fun _ => .ok [], pp := ppGood }

/-- C10: if every Mapping call returns exactly one response item per
query item (in request order), every index of the list returned by
`resolve_tickers_batch_with_prices` holds a populated record and no
`None` placeholder remains, so the field accesses of
`resolve_all_tickers` never dereference `None`; with the hypothesis
dropped, a Mapping response shorter than its query batch leaves a
`None` placeholder that survives into `resolve_all_tickers`, whose
`.get` access then raises `AttributeError`. -/
theorem C10_no_placeholder_under_count (env : Env) (stocks : List Stock) (s e : Nat)
    (rs : List (Option ResolutionResult))
    (Hcount : ∀ qs r, env.mapApi qs = .ok r → r.length = qs.length)
    (hok : resolve_tickers_batch_with_prices env stocks s e = .ok rs) :
    (rs.length = stocks.length ∧ ∀ j, j < rs.length → ∃ v, rs[j]? = some (some v)) ∧
    resolve_tickers_batch_with_prices envShort [⟨"A", "", "IS1"⟩] 1 2 = .ok [none] ∧
    resolve_all_tickers envShort [⟨"A", "", "IS1"⟩] 1 2 = .error .attributeError := by
  refine ⟨?_, rfl, rfl⟩
  rcases hcat : categorize stocks 0 with ⟨res0, ii, istk, ni, nstk⟩
  have hres0 : res0 = stocks.map initEntry := by
    have h := categorize_results stocks 0
    rw [hcat] at h
    exact h
  have hzipI : ii.zip istk = (stocks.enumFrom 0).filter (fun q => isinClass q.2) := by
    have h := categorize_zip_isin stocks 0
    rw [hcat] at h
    exact h
  have hzipN : ni.zip nstk = (stocks.enumFrom 0).filter (fun q => nameClass q.2) := by
    have h := categorize_zip_name stocks 0
    rw [hcat] at h
    exact h
  have hlenI : ii.length = istk.length := by
    have h := categorize_len_isin stocks 0
    rw [hcat] at h
    exact h
  have hlenN : ni.length = nstk.length := by
    have h := categorize_len_name stocks 0
    rw [hcat] at h
    exact h
  have hres0len : res0.length = stocks.length := by
    rw [hres0, List.length_map]
  simp only [resolve_tickers_batch_with_prices, hcat] at hok
  by_cases hz : (istk.length == 0 && nstk.length == 0) = true
  · rw [if_pos hz] at hok
    simp only [Bool.and_eq_true, beq_iff_eq] at hz
    have hrs : rs = res0 := by
      cases hok
      rfl
    subst hrs
    refine ⟨hres0len, fun j hj => ?_⟩
    have hjs : j < stocks.length := by
      rw [← hres0len]
      exact hj
    have ht : stocks[j].s_ticker ≠ "" := by
      by_contra hte
      by_cases hisin : stocks[j].s_isin ≠ ""
      · have hcl : isinClass stocks[j] = true := by
          simp only [isinClass, decide_eq_true_eq]
          exact ⟨(by simpa using hte), hisin⟩
        have hmem := pair_mem_filtered stocks isinClass j hjs hcl
        rw [← hzipI] at hmem
        have hie : istk = [] := List.eq_nil_of_length_eq_zero hz.1
        rw [hie, List.zip_nil_right] at hmem
        cases hmem
      · have hcl : nameClass stocks[j] = true := by
          simp only [nameClass, decide_eq_true_eq]
          exact ⟨(by simpa using hte), hisin⟩
        have hmem := pair_mem_filtered stocks nameClass j hjs hcl
        rw [← hzipN] at hmem
        have hne : nstk = [] := List.eq_nil_of_length_eq_zero hz.2
        rw [hne, List.zip_nil_right] at hmem
        cases hmem
    refine ⟨skipRecord stocks[j].s_ticker, ?_⟩
    rw [hres0, List.getElem?_map, List.getElem?_eq_getElem hjs]
    simp only [Option.map_some']
    rw [initEntry, if_pos ht]
  · rw [if_neg hz] at hok
    cases hil : isinLoop env s e ii istk
        ((istk.length + OPENFIGI_BATCH_SIZE - 1) / OPENFIGI_BATCH_SIZE) 0 res0 with
    | error r =>
      rw [hil] at hok
      exact Except.noConfusion hok
    | ok r1 =>
      rw [hil] at hok
      have hr1len : r1.length = res0.length :=
        isinLoop_length env s e ii istk _ 0 res0 r1 hil
      have hrslen : rs.length = r1.length :=
        nameLoop_length env s e (ni.zip nstk) r1 rs hok
      have hlenrs : rs.length = stocks.length := by
        rw [hrslen, hr1len, hres0len]
      refine ⟨hlenrs, fun j hj => ?_⟩
      have hjs : j < stocks.length := by
        rw [← hlenrs]
        exact hj
      by_cases ht : stocks[j].s_ticker ≠ ""
      · have hcov0 : coveredAt j res0 := by
          refine ⟨skipRecord stocks[j].s_ticker, ?_⟩
          rw [hres0, List.getElem?_map, List.getElem?_eq_getElem hjs]
          simp only [Option.map_some']
          rw [initEntry, if_pos ht]
        exact nameLoop_mono env s e j (ni.zip nstk) r1 rs hok
          (isinLoop_mono env s e ii istk j _ 0 res0 r1 hil hcov0)
      · by_cases hisin : stocks[j].s_isin ≠ ""
        · have hcl : isinClass stocks[j] = true := by
            simp only [isinClass, decide_eq_true_eq]
            exact ⟨ht, hisin⟩
          have hpair := pair_mem_filtered stocks isinClass j hjs hcl
          rw [← hzipI] at hpair
          rcases List.mem_iff_getElem?.mp hpair with ⟨p, hpz⟩
          have hcomp := List.getElem?_zip_eq_some.mp hpz
          have hiip : ii[p]? = some j := hcomp.1
          rcases List.getElem?_eq_some.mp hiip with ⟨hplt, hpval⟩
          have hb : ∀ x ∈ ii, x < res0.length := by
            intro x hx
            have hxi : x ∈ (ii.zip istk).map Prod.fst := by
              rw [List.map_fst_zip ii istk (le_of_eq hlenI)]
              exact hx
            rw [hzipI] at hxi
            rcases mem_keys_classification stocks isinClass x hxi with ⟨h', _⟩
            rw [hres0len]
            exact h'
          have hcov1 : coveredAt ii[p] r1 := by
            refine isinLoop_covers env s e Hcount ii istk _ 0 res0 r1 hil hb p
              (by omega) ?_ hplt
            simp only [OPENFIGI_BATCH_SIZE]
            have : p < istk.length := by
              rw [← hlenI]
              exact hplt
            omega
          rw [hpval] at hcov1
          exact nameLoop_mono env s e j (ni.zip nstk) r1 rs hok hcov1
        · have hcl : nameClass stocks[j] = true := by
            simp only [nameClass, decide_eq_true_eq]
            exact ⟨ht, hisin⟩
          have hpair := pair_mem_filtered stocks nameClass j hjs hcl
          rw [← hzipN] at hpair
          exact nameLoop_covers env s e (ni.zip nstk) r1 rs hok j stocks[j] hpair
            (by rw [hr1len, hres0len]; exact hjs)

/-- The not-found invariant of the spec data model: a result flagged
`b_not_found` carries an empty ticker, an empty full ticker, and no
price/currency fields. -/
def rrInv (r : ResolutionResult) : Prop :=
  r.b_not_found = true → r.s_ticker = "" ∧ r.s_full_ticker = "" ∧
    r.n_start_price = none ∧ r.n_end_price = none ∧ r.s_currency = none

theorem rrInv_notFoundRR : rrInv notFoundRR :=
  fun _ => ⟨rfl, rfl, rfl, rfl, rfl⟩

theorem rrInv_skipRecord (t : String) : rrInv (skipRecord t) := by
  intro h
  simp [skipRecord] at h

theorem rrInv_processMapItem (pp : PriceProvider) (s e : Nat) (m : MapResp) :
    rrInv (processMapItem pp s e m) := by
  cases m with
  | noMatch => exact rrInv_notFoundRR
  | found t x =>
    rw [processMapItem]
    split
    · intro h
      simp at h
    · exact rrInv_notFoundRR

theorem rrInv_searchOutcome (pp : PriceProvider) (cands : List Candidate)
    (name : String) (s e : Nat) : rrInv (searchOutcome pp cands name s e) := by
  rw [searchOutcome]
  split
  · exact rrInv_notFoundRR
  · cases hsel : select_and_validate_best_result pp cands name s e with
    | none => exact rrInv_notFoundRR
    | some best =>
      intro h
      simp at h

theorem rrInv_resolve_ticker (env : Env) (nm : String) (s e : Nat)
    (r : ResolutionResult) (h : resolve_ticker_with_prices env nm s e = .ok r) :
    rrInv r := by
  rw [resolve_ticker_with_prices] at h
  cases hs : env.searchApi nm with
  | error m =>
    rw [hs] at h
    exact Except.noConfusion h
  | ok cands =>
    rw [hs] at h
    injection h with h2
    rw [← h2]
    exact rrInv_searchOutcome env.pp cands nm s e

/-- Every populated entry of the working result list satisfies the
not-found invariant. -/
def allInv (res : List (Option ResolutionResult)) : Prop :=
  ∀ r : ResolutionResult, some r ∈ res → rrInv r

theorem allInv_set (res : List (Option ResolutionResult)) (i : Nat) (v : ResolutionResult)
    (hres : allInv res) (hv : rrInv v) : allInv (res.set i (some v)) := by
  intro r hr
  rcases List.mem_or_eq_of_mem_set hr with h | h
  · exact hres r h
  · rw [Option.some.inj h]
    exact hv

theorem allInv_init (stocks : List Stock) : allInv (stocks.map initEntry) := by
  intro r hr
  rcases List.mem_map.mp hr with ⟨st, _, hst⟩
  rw [initEntry] at hst
  split at hst
  · rw [← Option.some.inj hst]
    exact rrInv_skipRecord st.s_ticker
  · exact Option.noConfusion hst

theorem writeResponses_inv (env : Env) (s e : Nat) (isinIdx : List Nat) :
    ∀ resps pos results res',
      writeResponses env s e isinIdx pos resps results = .ok res' →
      allInv results → allInv res' := by
  intro resps
  induction resps with
  | nil =>
    intro pos results res' h hi
    rw [writeResponses] at h
    cases h
    exact hi
  | cons r rs ih =>
    intro pos results res' h hi
    rw [writeResponses] at h
    cases hidx : isinIdx[pos]? with
    | none =>
      rw [hidx] at h
      cases h
    | some orig =>
      rw [hidx] at h
      exact ih (pos + 1) _ _ h
        (allInv_set results orig _ hi (rrInv_processMapItem env.pp s e r))

theorem isinLoop_inv (env : Env) (s e : Nat) (isinIdx : List Nat)
    (isinStocks : List Stock) :
    ∀ k b results res',
      isinLoop env s e isinIdx isinStocks k b results = .ok res' →
      allInv results → allInv res' := by
  intro k
  induction k with
  | zero =>
    intro b results res' h hi
    rw [isinLoop] at h
    cases h
    exact hi
  | succ k ih =>
    intro b results res' h hi
    rw [isinLoop] at h
    cases hm : env.mapApi (((isinStocks.drop (b * OPENFIGI_BATCH_SIZE)).take
        (min (b * OPENFIGI_BATCH_SIZE + OPENFIGI_BATCH_SIZE) isinStocks.length -
          b * OPENFIGI_BATCH_SIZE)).map (fun st => st.s_isin)) with
    | error msg =>
      simp only [hm] at h
      exact Except.noConfusion h
    | ok resps =>
      simp only [hm] at h
      cases hw : writeResponses env s e isinIdx (b * OPENFIGI_BATCH_SIZE) resps results with
      | error r =>
        simp only [hw] at h
        exact Except.noConfusion h
      | ok results2 =>
        simp only [hw] at h
        exact ih (b + 1) results2 res' h
          (writeResponses_inv env s e isinIdx resps _ results results2 hw hi)

theorem nameLoop_inv (env : Env) (s e : Nat) :
    ∀ pairs results res',
      nameLoop env s e pairs results = .ok res' →
      allInv results → allInv res' := by
  intro pairs
  induction pairs with
  | nil =>
    intro results res' h hi
    cases h
    exact hi
  | cons p rest ih =>
    intro results res' h hi
    cases p with
    | mk orig st =>
      rw [nameLoop] at h
      cases hr : resolve_ticker_with_prices env st.s_name s e with
      | error r =>
        rw [hr] at h
        cases h
      | ok v =>
        rw [hr] at h
        exact ih _ res' h
          (allInv_set results orig v hi (rrInv_resolve_ticker env st.s_name s e v hr))

/-- C4: in every result list the batch resolver returns — whatever the
branch (ISIN no-match or validation failure, or name-search) — a
result with `b_not_found = true` has an empty ticker, an empty full
ticker, and absent start price, end price and currency; the same holds
for the single-stock name resolver. -/
theorem C4_notFound_implies_empty_fields (env : Env) (stocks : List Stock) (s e : Nat)
    (rs : List (Option ResolutionResult)) (r : ResolutionResult) :
    (resolve_tickers_batch_with_prices env stocks s e = .ok rs → some r ∈ rs →
      r.b_not_found = true →
      r.s_ticker = "" ∧ r.s_full_ticker = "" ∧ r.n_start_price = none ∧
        r.n_end_price = none ∧ r.s_currency = none) ∧
    (∀ nm r2, resolve_ticker_with_prices env nm s e = .ok r2 → r2.b_not_found = true →
      r2.s_ticker = "" ∧ r2.s_full_ticker = "" ∧ r2.n_start_price = none ∧
        r2.n_end_price = none ∧ r2.s_currency = none) := by
  constructor
  · intro hok hmem hnf
    rcases hcat : categorize stocks 0 with ⟨res0, ii, istk, ni, nstk⟩
    have hres0 : res0 = stocks.map initEntry := by
      have h := categorize_results stocks 0
      rw [hcat] at h
      exact h
    simp only [resolve_tickers_batch_with_prices, hcat] at hok
    by_cases hz : (istk.length == 0 && nstk.length == 0) = true
    · rw [if_pos hz] at hok
      cases hok
      exact allInv_init stocks r (hres0 ▸ hmem) hnf
    · rw [if_neg hz] at hok
      cases hil : isinLoop env s e ii istk
          ((istk.length + OPENFIGI_BATCH_SIZE - 1) / OPENFIGI_BATCH_SIZE) 0 res0 with
      | error r3 =>
        rw [hil] at hok
        exact Except.noConfusion hok
      | ok r1 =>
        rw [hil] at hok
        have hinv1 : allInv r1 :=
          isinLoop_inv env s e ii istk _ 0 res0 r1 hil (hres0 ▸ allInv_init stocks)
        exact nameLoop_inv env s e (ni.zip nstk) r1 rs hok hinv1 r hmem hnf
  · intro nm r2 hok hnf
    exact rrInv_resolve_ticker env nm s e r2 hok hnf

/-- The Mapping endpoint that answers `noMatch` for every query. -/
def envNF : Env :=
  { mapApi := fun qs => .ok (qs.map (fun _ => .noMatch)),
    searchApi := fun _ => .ok [], pp := ppGood }

/-- Concrete instance of C4: an ISIN no-match produces the all-empty
not-found record. -/
theorem C4_notFound_implies_empty_fields_witness :
    notFoundRR.s_ticker = "" ∧ notFoundRR.s_full_ticker = "" ∧
      notFoundRR.n_start_price = none ∧ notFoundRR.n_end_price = none ∧
      notFoundRR.s_currency = none :=
  (C4_notFound_implies_empty_fields envNF [⟨"A", "", "IS1"⟩] 1 2
      [some notFoundRR] notFoundRR).1 rfl (by simp) rfl

/-- Whenever the live-fetch path returns a record (success or
`Delisted`), its note list is exactly one note per adjusted date that
differs from the input. -/
theorem processLive_notes (pp : PriceProvider) (st : EnrichedStock) (s e : Nat)
    (out : StockResult × List String) (hok : processLive pp st s e = .ok out) :
    out.2 = (if (adjust_to_trading_day s).2 then
               [startNote (adjust_to_trading_day s).1 st.s_name] else []) ++
            (if (adjust_to_trading_day e).2 then
               [endNote (adjust_to_trading_day e).1 st.s_name] else []) := by
  simp only [processLive] at hok
  cases hf1 : fetch_stock_price pp st.s_ticker (adjust_to_trading_day s).1 with
  | error x =>
    cases x with
    | delistedE =>
      simp only [hf1] at hok
      cases hok
      rfl
    | provider =>
      simp only [hf1] at hok
      exact Except.noConfusion hok
    | zeroDiv =>
      simp only [hf1] at hok
      exact Except.noConfusion hok
  | ok p1 =>
    simp only [hf1] at hok
    cases hf2 : fetch_stock_price pp st.s_ticker (adjust_to_trading_day e).1 with
    | error x =>
      cases x with
      | delistedE =>
        simp only [hf2] at hok
        cases hok
        rfl
      | provider =>
        simp only [hf2] at hok
        exact Except.noConfusion hok
      | zeroDiv =>
        simp only [hf2] at hok
        exact Except.noConfusion hok
    | ok p2 =>
      simp only [hf2] at hok
      cases hpc : calculate_percentage_change p1 p2 with
      | error x =>
        simp only [hpc] at hok
        exact Except.noConfusion hok
      | ok pct =>
        simp only [hpc] at hok
        cases hcu : fetch_stock_currency pp st.s_ticker with
        | error x =>
          simp only [hcu] at hok
          exact Except.noConfusion hok
        | ok cur =>
          simp only [hcu] at hok
          cases hok
          rfl

/-- C5 amended: `process_stock` produces the date-adjustment notes
exactly on the live-fetch path: the not-found and cached-price paths
return an empty note list, and the live path returns one note per
adjusted date that differs from the input. -/
theorem C5_notes_only_on_live_path (pp : PriceProvider) (st : EnrichedStock)
    (s e : Nat) (out : StockResult × List String)
    (hok : process_stock pp st s e = .ok out) :
    out.2 = if st.b_not_found = true ∨ st.s_ticker = "" then ([] : List String)
      else if st.n_start_price.isSome ∧ st.n_end_price.isSome ∧ st.s_currency.isSome
        then []
      else (if (adjust_to_trading_day s).2 then
              [startNote (adjust_to_trading_day s).1 st.s_name] else []) ++
           (if (adjust_to_trading_day e).2 then
              [endNote (adjust_to_trading_day e).1 st.s_name] else []) := by
  rw [process_stock] at hok
  by_cases hnf : (st.b_not_found || st.s_ticker == "") = true
  · rw [if_pos hnf] at hok
    cases hok
    rw [if_pos (by simpa [Bool.or_eq_true] using hnf)]
  · rw [if_neg hnf] at hok
    have hnf' : ¬(st.b_not_found = true ∨ st.s_ticker = "") := by
      simpa [Bool.or_eq_true] using hnf
    cases hsp : st.n_start_price with
    | none =>
      simp only [hsp] at hok
      rw [processLive_notes pp st s e out hok, if_neg hnf']
      simp
    | some sp =>
      cases hep : st.n_end_price with
      | none =>
        simp only [hsp, hep] at hok
        rw [processLive_notes pp st s e out hok, if_neg hnf']
        simp
      | some ep =>
        cases hcu : st.s_currency with
        | none =>
          simp only [hsp, hep, hcu] at hok
          rw [processLive_notes pp st s e out hok, if_neg hnf']
          simp
        | some cu =>
          simp only [hsp, hep, hcu] at hok
          cases hpc : calculate_percentage_change sp ep with
          | error x =>
            simp only [hpc] at hok
            exact Except.noConfusion hok
          | ok pct =>
            simp only [hpc] at hok
            cases hok
            rw [if_neg hnf']
            simp

/-- A stock record with a ticker and a full cached price set. -/
def stCached : EnrichedStock :=
  { s_name := "Acme", s_ticker := "ACM", s_isin := "", b_not_found := false,
    n_start_price := some 1, n_end_price := some 2, s_currency := some "USD" }

/-- A stock record with a ticker and no cached prices (user-supplied
ticker that bypassed resolution). -/
def stLive : EnrichedStock :=
  { s_name := "Acme", s_ticker := "ACM", s_isin := "", b_not_found := false,
    n_start_price := none, n_end_price := none, s_currency := none }

/-- A provider whose windows are always empty. -/
def ppEmpty : PriceProvider :=
  { history := fun _ _ _ => .ok [], info := fun _ => .ok none }

/-- C5 counterexample: ordinal 6 is a Saturday, so the start date is
adjusted (to Monday, ordinal 8), yet for a stock whose prices were
cached during resolution `process_stock` returns an empty note list —
refuting the claim that the note is produced "including when the
stock's prices were cached during resolution". -/
theorem C5_counterexample_cached_path_no_note :
    adjust_to_trading_day 6 = (8, true) ∧
    process_stock ppGood stCached 6 3 =
      .ok ({ s_name := "Acme", s_ticker := "ACM", s_isin := "",
             n_start_price := some (round2 1), n_end_price := some (round2 2),
             n_percentage := some (round2 100), s_currency := "USD", s_error := "" },
           []) := by
  refine ⟨rfl, ?_⟩
  have hc : calculate_percentage_change 1 2 = .ok 100 := by
    simp only [calculate_percentage_change, pyDiv]
    norm_num
  simp only [process_stock, stCached, hc, baseResult]
  rfl

/-- Concrete instance of the amended C5 on the live (`Delisted`)
path: the Saturday start date yields exactly its note. -/
theorem C5_notes_only_on_live_path_witness :
    ([startNote 8 "Acme"] : List String) =
      if stLive.b_not_found = true ∨ stLive.s_ticker = "" then ([] : List String)
      else if stLive.n_start_price.isSome ∧ stLive.n_end_price.isSome ∧
          stLive.s_currency.isSome then []
      else (if (adjust_to_trading_day 6).2 then
              [startNote (adjust_to_trading_day 6).1 stLive.s_name] else []) ++
           (if (adjust_to_trading_day 3).2 then
              [endNote (adjust_to_trading_day 3).1 stLive.s_name] else []) :=
  C5_notes_only_on_live_path ppEmpty stLive 6 3
    ({ s_name := "Acme", s_ticker := "ACM", s_isin := "", n_start_price := none,
       n_end_price := none, n_percentage := none, s_currency := "",
       s_error := "Delisted" }, [startNote 8 "Acme"]) rfl

/-- A record returned by the live-fetch path carries either the
`Delisted` error or no error. -/
theorem processLive_err_cases (pp : PriceProvider) (st : EnrichedStock) (s e : Nat)
    (out : StockResult × List String) (hok : processLive pp st s e = .ok out) :
    out.1.s_error = "Delisted" ∨ out.1.s_error = "" := by
  simp only [processLive] at hok
  cases hf1 : fetch_stock_price pp st.s_ticker (adjust_to_trading_day s).1 with
  | error x =>
    cases x with
    | delistedE =>
      simp only [hf1] at hok
      cases hok
      exact Or.inl rfl
    | provider =>
      simp only [hf1] at hok
      exact Except.noConfusion hok
    | zeroDiv =>
      simp only [hf1] at hok
      exact Except.noConfusion hok
  | ok p1 =>
    simp only [hf1] at hok
    cases hf2 : fetch_stock_price pp st.s_ticker (adjust_to_trading_day e).1 with
    | error x =>
      cases x with
      | delistedE =>
        simp only [hf2] at hok
        cases hok
        exact Or.inl rfl
      | provider =>
        simp only [hf2] at hok
        exact Except.noConfusion hok
      | zeroDiv =>
        simp only [hf2] at hok
        exact Except.noConfusion hok
    | ok p2 =>
      simp only [hf2] at hok
      cases hpc : calculate_percentage_change p1 p2 with
      | error x =>
        simp only [hpc] at hok
        exact Except.noConfusion hok
      | ok pct =>
        simp only [hpc] at hok
        cases hcu : fetch_stock_currency pp st.s_ticker with
        | error x =>
          simp only [hcu] at hok
          exact Except.noConfusion hok
        | ok cur =>
          simp only [hcu] at hok
          cases hok
          exact Or.inr rfl

/-- C6: `process_stock` returns the `"Stock details not found"` error
record (with no price fields) exactly when the input has
`b_not_found = true` or an empty ticker; and on the live-fetch path
(no complete cached price set), a provider window with no data for the
adjusted start date — or for the adjusted end date after a non-empty
start window — yields the `"Delisted"` error record with no price
fields.  (`process_stock` handles a single stock, so other stocks are
unaffected by construction.) -/
theorem C6_not_found_and_delisted (pp : PriceProvider) (st : EnrichedStock) (s e : Nat) :
    ((st.b_not_found = true ∨ st.s_ticker = "") →
      process_stock pp st s e =
        .ok ({ baseResult st with s_error := "Stock details not found" }, [])) ∧
    (∀ out, process_stock pp st s e = .ok out →
      (out.1.s_error = "Stock details not found" ↔
        (st.b_not_found = true ∨ st.s_ticker = ""))) ∧
    (st.b_not_found = false → st.s_ticker ≠ "" →
      (st.n_start_price = none ∨ st.n_end_price = none ∨ st.s_currency = none) →
      (pp.history st.s_ticker (adjust_to_trading_day s).1
          ((adjust_to_trading_day s).1 + 5) = .ok [] ∨
        (∃ p l, pp.history st.s_ticker (adjust_to_trading_day s).1
            ((adjust_to_trading_day s).1 + 5) = .ok (p :: l) ∧
          pp.history st.s_ticker (adjust_to_trading_day e).1
            ((adjust_to_trading_day e).1 + 5) = .ok [])) →
      process_stock pp st s e =
        .ok ({ baseResult st with s_error := "Delisted" },
          (if (adjust_to_trading_day s).2 then
            [startNote (adjust_to_trading_day s).1 st.s_name] else []) ++
          (if (adjust_to_trading_day e).2 then
            [endNote (adjust_to_trading_day e).1 st.s_name] else []))) := by
  have hlive : (st.n_start_price = none ∨ st.n_end_price = none ∨ st.s_currency = none) →
      (pp.history st.s_ticker (adjust_to_trading_day s).1
          ((adjust_to_trading_day s).1 + 5) = .ok [] ∨
        (∃ p l, pp.history st.s_ticker (adjust_to_trading_day s).1
            ((adjust_to_trading_day s).1 + 5) = .ok (p :: l) ∧
          pp.history st.s_ticker (adjust_to_trading_day e).1
            ((adjust_to_trading_day e).1 + 5) = .ok [])) →
      processLive pp st s e =
        .ok ({ baseResult st with s_error := "Delisted" },
          (if (adjust_to_trading_day s).2 then
            [startNote (adjust_to_trading_day s).1 st.s_name] else []) ++
          (if (adjust_to_trading_day e).2 then
            [endNote (adjust_to_trading_day e).1 st.s_name] else [])) := by
    intro _ hdel
    simp only [processLive]
    rcases hdel with h1 | ⟨p, l, h1, h2⟩
    · have hf : fetch_stock_price pp st.s_ticker (adjust_to_trading_day s).1 =
          .error .delistedE := by
        rw [fetch_stock_price, h1]
      simp only [hf]
    · have hf1 : fetch_stock_price pp st.s_ticker (adjust_to_trading_day s).1 = .ok p := by
        rw [fetch_stock_price, h1]
      have hf2 : fetch_stock_price pp st.s_ticker (adjust_to_trading_day e).1 =
          .error .delistedE := by
        rw [fetch_stock_price, h2]
      simp only [hf1, hf2]
  refine ⟨?_, ?_, ?_⟩
  · intro hcond
    rw [process_stock, if_pos (by
      rcases hcond with h | h
      · simp [h]
      · simp [h])]
  · intro out hok
    rw [process_stock] at hok
    by_cases hnf : (st.b_not_found || st.s_ticker == "") = true
    · rw [if_pos hnf] at hok
      cases hok
      constructor
      · intro _
        simpa [Bool.or_eq_true] using hnf
      · intro _
        rfl
    · rw [if_neg hnf] at hok
      have hnf' : ¬(st.b_not_found = true ∨ st.s_ticker = "") := by
        simpa [Bool.or_eq_true] using hnf
      constructor
      · intro herr
        exfalso
        revert herr
        cases hsp : st.n_start_price with
        | none =>
          simp only [hsp] at hok
          intro herr
          have hn := processLive_err_cases pp st s e out hok
          rcases hn with h | h <;> rw [h] at herr <;> simp at herr
        | some sp =>
          cases hep : st.n_end_price with
          | none =>
            simp only [hsp, hep] at hok
            intro herr
            have hn := processLive_err_cases pp st s e out hok
            rcases hn with h | h <;> rw [h] at herr <;> simp at herr
          | some ep =>
            cases hcu : st.s_currency with
            | none =>
              simp only [hsp, hep, hcu] at hok
              intro herr
              have hn := processLive_err_cases pp st s e out hok
              rcases hn with h | h <;> rw [h] at herr <;> simp at herr
            | some cu =>
              simp only [hsp, hep, hcu] at hok
              cases hpc : calculate_percentage_change sp ep with
              | error x =>
                simp only [hpc] at hok
                exact fun _ => Except.noConfusion hok
              | ok pct =>
                simp only [hpc] at hok
                cases hok
                intro herr
                simp [baseResult] at herr
      · intro hcond
        exact absurd hcond hnf'
  · intro hnfb hne hcache hdel
    rw [process_stock, if_neg (by simp [hnfb, hne])]
    have hlive2 := hlive hcache hdel
    rcases hcache with hc | hc | hc
    · cases hsp : st.n_start_price with
      | none => simpa [hsp] using hlive2
      | some sp => rw [hsp] at hc; cases hc
    · cases hsp : st.n_start_price with
      | none => simpa [hsp] using hlive2
      | some sp =>
        cases hep : st.n_end_price with
        | none => simpa [hsp, hep] using hlive2
        | some ep => rw [hep] at hc; cases hc
    · cases hsp : st.n_start_price with
      | none => simpa [hsp] using hlive2
      | some sp =>
        cases hep : st.n_end_price with
        | none => simpa [hsp, hep] using hlive2
        | some ep =>
          cases hcu : st.s_currency with
          | none => simpa [hsp, hep, hcu] using hlive2
          | some cu => rw [hcu] at hc; cases hc

/-- Concrete instance of C6 on the `Delisted` path: an empty provider
window for the adjusted Saturday start date gives the `Delisted`
record. -/
theorem C6_not_found_and_delisted_witness :
    process_stock ppEmpty stLive 6 3 =
      .ok ({ baseResult stLive with s_error := "Delisted" },
        (if (adjust_to_trading_day 6).2 then
          [startNote (adjust_to_trading_day 6).1 stLive.s_name] else []) ++
        (if (adjust_to_trading_day 3).2 then
          [endNote (adjust_to_trading_day 3).1 stLive.s_name] else [])) :=
  (C6_not_found_and_delisted ppEmpty stLive 6 3).2.2 rfl (by decide) (Or.inl rfl)
    (Or.inl rfl)

/-- Concrete instance of C2 on a three-branch input: one pre-ticketed
stock, one ISIN stock, one name-only stock. -/
theorem C2_batch_resolver_positional_witness :
    resolve_tickers_batch_with_prices envNF
        [⟨"Apple", "AAPL", ""⟩, ⟨"B", "", "IS1"⟩, ⟨"C", "", ""⟩] 1 2 =
      .ok (([⟨"Apple", "AAPL", ""⟩, ⟨"B", "", "IS1"⟩, ⟨"C", "", ""⟩] : List Stock).map
        (fun st => some (expectedResolution envNF.pp (fun _ => MapResp.noMatch)
          (fun _ => []) 1 2 st))) :=
  C2_batch_resolver_positional envNF _ 1 2 (fun _ => .noMatch) (fun _ => [])
    (fun _ => rfl) (fun _ => rfl)

/-- Concrete instance of the universal part of C10 on a one-item
Mapping endpoint. -/
theorem C10_no_placeholder_under_count_witness :
    ([some notFoundRR] : List (Option ResolutionResult)).length =
        ([⟨"A", "", "IS1"⟩] : List Stock).length ∧
      ∀ j, j < ([some notFoundRR] : List (Option ResolutionResult)).length →
        ∃ v, ([some notFoundRR] : List (Option ResolutionResult))[j]? = some (some v) :=
  (C10_no_placeholder_under_count envNF [⟨"A", "", "IS1"⟩] 1 2 [some notFoundRR]
      (fun qs r h => by
        injection h with h2
        rw [← h2, List.length_map]) rfl).1

end StockCalc
